import Mathlib

/-!
Verification development for the `computer-use-mcp` repository.

The Python sources `task_manager.py`, `browser_agent.py` and `server.py` are
shallowly embedded below: pure record manipulation becomes Lean functions,
the task table becomes an association list transformed by explicit
operations, timestamps become natural-number clock values supplied by the
caller, and the agent loop becomes a recursive function over an abstract
decision service.
-/

namespace ComputerUseMCP

/-! ## Embedding of `task_manager.py` -/

/-- Task status constants of class `TaskStatus` in `task_manager.py`. -/
inductive TaskStatus where
  | pending
  | running
  | completed
  | failed
  | cancelled
deriving DecidableEq

/-- A status is terminal when it is one of completed, failed, cancelled
(the list used by `cancel_task` and `cleanup_old_tasks`). -/
def TaskStatus.isTerminal : TaskStatus → Bool
  | .completed => true
  | .failed => true
  | .cancelled => true
  | _ => false

/-- One entry of `progress_updates`, as appended by
`GeminiBrowserAgent._add_progress`: a timestamp (modelled as an abstract
clock value), the event type string, and the message. -/
structure ProgEvent where
  timestamp : Nat
  type : String
  message : String
deriving DecidableEq

/-- The dictionary returned by `GeminiBrowserAgent.execute_task`: on success
`{ok: True, data, progress}` (the artifact-directory and session-id keys
are opaque strings irrelevant to the claims and are omitted), on failure
`{ok: False, error}` with no progress key. -/
structure ExecResult where
  ok : Bool
  data : Option String
  error : Option String
  progress : Option (List ProgEvent)
deriving DecidableEq

/-- The mutable state of class `BrowserTask` in `task_manager.py`. -/
structure BrowserTask where
  task_id : String
  task_description : String
  url : String
  status : TaskStatus
  created_at : Nat
  started_at : Option Nat
  completed_at : Option Nat
  result : Option ExecResult
  error : Option String
  progress_updates : List ProgEvent
deriving DecidableEq

/-- The dictionary built by `BrowserTask.to_dict`. -/
structure TaskDict where
  task_id : String
  task_description : String
  url : String
  status : TaskStatus
  created_at : Nat
  started_at : Option Nat
  completed_at : Option Nat
  progress : List ProgEvent
  result : Option ExecResult
  error : Option String
deriving DecidableEq

/-- The `progress_summary` sub-dictionary of `BrowserTask.to_compact_dict`. -/
structure ProgressSummary where
  total_steps : Nat
  recent_actions : List String
deriving DecidableEq

/-- The dictionary built by `BrowserTask.to_compact_dict`; `result` and
`error` are `none` exactly when the corresponding Python key is absent. -/
structure CompactDict where
  task_id : String
  task_description : String
  url : String
  status : TaskStatus
  created_at : Nat
  started_at : Option Nat
  completed_at : Option Nat
  progress_summary : ProgressSummary
  result : Option ExecResult
  error : Option String
deriving DecidableEq

/-- `BrowserTask.to_dict`. -/
def BrowserTask.to_dict (t : BrowserTask) : TaskDict :=
  { task_id := t.task_id
    task_description := t.task_description
    url := t.url
    status := t.status
    created_at := t.created_at
    started_at := t.started_at
    completed_at := t.completed_at
    progress := t.progress_updates
    result := t.result
    error := t.error }

/-- `BrowserTask.to_compact_dict`.  `self.progress_updates[-3:]` is the
suffix of length `min 3 n`, i.e. `drop (n - 3)`; the `if self.progress_updates`
truthiness tests are mirrored by `isEmpty` tests. -/
def BrowserTask.to_compact_dict (t : BrowserTask) : CompactDict :=
  let recent_progress : List String :=
    if t.progress_updates.isEmpty then []
    else (t.progress_updates.drop (t.progress_updates.length - 3)).map (·.message)
  { task_id := t.task_id
    task_description := t.task_description
    url := t.url
    status := t.status
    created_at := t.created_at
    started_at := t.started_at
    completed_at := t.completed_at
    progress_summary :=
      { total_steps := if t.progress_updates.isEmpty then 0 else t.progress_updates.length
        recent_actions := recent_progress }
    result := if t.status = .completed then t.result else none
    error := if t.status = .failed then t.error else none }

/-- The task table `BrowserTaskManager.tasks`, as an association list
(uuid keys are unique in the Python dict). -/
abbrev TaskTable := List (String × BrowserTask)

/-- In-place mutation of the record stored under `task_id`
(Python mutates the `BrowserTask` object held in the dict). -/
def updateTask (tasks : TaskTable) (task_id : String) (t : BrowserTask) : TaskTable :=
  tasks.map (fun p => if p.1 = task_id then (task_id, t) else p)

/-- The fresh record built by `BrowserTask.__init__` for `create_task`. -/
def mkBrowserTask (task_id task_description url : String) (now : Nat) : BrowserTask :=
  { task_id := task_id
    task_description := task_description
    url := url
    status := .pending
    created_at := now
    started_at := none
    completed_at := none
    result := none
    error := none
    progress_updates := [] }

/-- `BrowserTaskManager.cancel_task`: returns the boolean result and the
table after the call (`now` is the wall-clock value used for
`completed_at`).  The browser-teardown side effect is external. -/
def cancel_task (tasks : TaskTable) (task_id : String) (now : Nat) :
    Bool × TaskTable :=
  match tasks.lookup task_id with
  | none => (false, tasks)
  | some task =>
    if task.status = .pending ∨ task.status = .running then
      (true, updateTask tasks task_id
        { task with status := .cancelled, completed_at := some now })
    else
      (false, tasks)

/-- The removal condition of `BrowserTaskManager.cleanup_old_tasks` for one
record: terminal status, a completion timestamp present, and that
timestamp strictly below the cutoff. -/
def shouldRemove (task : BrowserTask) (cutoff : Int) : Bool :=
  task.status.isTerminal &&
    match task.completed_at with
    | some c => decide ((c : Int) < cutoff)
    | none => false

/-- `BrowserTaskManager.cleanup_old_tasks`: collect-and-delete over the
whole table, equivalent to filtering with the negated removal condition. -/
def cleanup_old_tasks (tasks : TaskTable) (max_age_hours : Nat) (now : Nat) :
    TaskTable :=
  let cutoff : Int := (now : Int) - (max_age_hours : Int) * 3600
  tasks.filter (fun p => !(shouldRemove p.2 cutoff))

/-! ### Claim C5: cancel semantics -/

/-- C5: `cancel_task` returns true iff the job exists with status pending
or running; in that case the record becomes cancelled with `completed_at`
stamped and all other fields unchanged; otherwise the table is unchanged. -/
theorem cancel_task_spec (tasks : TaskTable) (task_id : String) (now : Nat) :
    ((cancel_task tasks task_id now).1 = true ↔
      ∃ t, tasks.lookup task_id = some t ∧
        (t.status = .pending ∨ t.status = .running)) ∧
    ((cancel_task tasks task_id now).1 = false →
      (cancel_task tasks task_id now).2 = tasks) ∧
    (∀ t, tasks.lookup task_id = some t →
      (t.status = .pending ∨ t.status = .running) →
      (cancel_task tasks task_id now).2 =
        updateTask tasks task_id
          { t with status := .cancelled, completed_at := some now }) := by
  unfold cancel_task
  refine ⟨?_, ?_, ?_⟩
  · constructor
    · intro h
      cases hl : tasks.lookup task_id with
      | none => simp [hl] at h
      | some t =>
        refine ⟨t, rfl, ?_⟩
        by_contra hc
        simp [hl, hc] at h
    · rintro ⟨t, hl, hs⟩
      simp [hl, hs]
  · intro h
    cases hl : tasks.lookup task_id with
    | none => simp [hl]
    | some t =>
      by_cases hs : t.status = .pending ∨ t.status = .running
      · simp [hl, hs] at h
      · simp [hl, hs]
  · intro t hl hs
    simp [hl, hs]

/-- Witness for C5 on a concrete one-entry table holding a running job. -/
theorem cancel_task_spec_witness :
    ((cancel_task [("j", { mkBrowserTask "j" "d" "u" 0 with status := .running })]
        "j" 7).1 = true ↔
      ∃ t, ([("j", { mkBrowserTask "j" "d" "u" 0 with status := .running })].lookup "j")
          = some t ∧ (t.status = .pending ∨ t.status = .running)) ∧
    (((cancel_task [("j", { mkBrowserTask "j" "d" "u" 0 with status := .running })]
        "j" 7).1 = false →
      (cancel_task [("j", { mkBrowserTask "j" "d" "u" 0 with status := .running })]
        "j" 7).2 = [("j", { mkBrowserTask "j" "d" "u" 0 with status := .running })])) ∧
    (∀ t, ([("j", { mkBrowserTask "j" "d" "u" 0 with status := .running })].lookup "j")
        = some t →
      (t.status = .pending ∨ t.status = .running) →
      (cancel_task [("j", { mkBrowserTask "j" "d" "u" 0 with status := .running })]
          "j" 7).2 =
        updateTask [("j", { mkBrowserTask "j" "d" "u" 0 with status := .running })]
          "j" { t with status := .cancelled, completed_at := some 7 }) :=
  cancel_task_spec [("j", { mkBrowserTask "j" "d" "u" 0 with status := .running })] "j" 7

/-! ### Claim C6: compact versus full status view -/

/-- C6: the compact view keeps exactly `min n 3` progress messages, they
are a suffix (the most recent, in order) of the full message history, its
`total_steps` equals the full history length `n`, and the full view
returns the complete ordered history. -/
theorem compact_view_spec (t : BrowserTask) :
    (t.to_compact_dict.progress_summary.recent_actions.length =
      min t.progress_updates.length 3) ∧
    (t.to_compact_dict.progress_summary.recent_actions <:+
      t.to_dict.progress.map (·.message)) ∧
    (t.to_compact_dict.progress_summary.total_steps = t.to_dict.progress.length) ∧
    (t.to_dict.progress = t.progress_updates) := by
  unfold BrowserTask.to_compact_dict BrowserTask.to_dict
  by_cases h : t.progress_updates.isEmpty
  · simp_all [List.isEmpty_iff]
  · refine ⟨?_, ?_, ?_, rfl⟩
    · simp [h, List.length_drop]
      omega
    · simp only [h, if_false, List.map_drop]
      exact List.drop_suffix _ _
    · simp [h]

theorem compact_view_spec_witness :
    ((mkBrowserTask "j" "d" "u" 0).to_compact_dict.progress_summary.recent_actions.length =
      min (mkBrowserTask "j" "d" "u" 0).progress_updates.length 3) ∧
    ((mkBrowserTask "j" "d" "u" 0).to_compact_dict.progress_summary.recent_actions <:+
      (mkBrowserTask "j" "d" "u" 0).to_dict.progress.map (·.message)) ∧
    ((mkBrowserTask "j" "d" "u" 0).to_compact_dict.progress_summary.total_steps =
      (mkBrowserTask "j" "d" "u" 0).to_dict.progress.length) ∧
    ((mkBrowserTask "j" "d" "u" 0).to_dict.progress =
      (mkBrowserTask "j" "d" "u" 0).progress_updates) :=
  compact_view_spec (mkBrowserTask "j" "d" "u" 0)

/-! ### Claim C7: garbage collection -/

/-- C7: `cleanup_old_tasks` keeps exactly the records that are not
(terminal with a completion time older than the cutoff); in particular a
pending or running record is never removed, whatever its age. -/
theorem cleanup_old_tasks_spec (tasks : TaskTable) (max_age_hours now : Nat)
    (task_id : String) (t : BrowserTask) :
    ((task_id, t) ∈ cleanup_old_tasks tasks max_age_hours now ↔
      (task_id, t) ∈ tasks ∧
        ¬(t.status.isTerminal = true ∧
          ∃ c : Nat, t.completed_at = some c ∧
            (c : Int) < (now : Int) - (max_age_hours : Int) * 3600)) ∧
    ((t.status = .pending ∨ t.status = .running) →
      ((task_id, t) ∈ cleanup_old_tasks tasks max_age_hours now ↔
        (task_id, t) ∈ tasks)) := by
  have hmain : (task_id, t) ∈ cleanup_old_tasks tasks max_age_hours now ↔
      (task_id, t) ∈ tasks ∧
        ¬(t.status.isTerminal = true ∧
          ∃ c : Nat, t.completed_at = some c ∧
            (c : Int) < (now : Int) - (max_age_hours : Int) * 3600) := by
    unfold cleanup_old_tasks
    rw [List.mem_filter]
    constructor
    · rintro ⟨hm, hf⟩
      refine ⟨hm, ?_⟩
      rintro ⟨hterm, c, hc, hlt⟩
      unfold shouldRemove at hf
      simp [hterm, hc, hlt] at hf
    · rintro ⟨hm, hn⟩
      refine ⟨hm, ?_⟩
      unfold shouldRemove
      simp only [Bool.not_eq_true']
      cases hterm : t.status.isTerminal with
      | false => simp
      | true =>
        cases hc : t.completed_at with
        | none => simp
        | some c =>
          simp only [Bool.true_and, decide_eq_false_iff_not]
          intro hlt
          exact hn ⟨hterm, c, hc, hlt⟩
  refine ⟨hmain, ?_⟩
  intro hs
  rw [hmain]
  have hterm : t.status.isTerminal = false := by
    rcases hs with h | h <;> simp [h, TaskStatus.isTerminal]
  constructor
  · rintro ⟨hm, _⟩
    exact hm
  · intro hm
    refine ⟨hm, ?_⟩
    rintro ⟨ht, _⟩
    rw [hterm] at ht
    exact Bool.false_ne_true ht

/-- Witness for C7: a running record as old as time zero survives a
24-hour garbage collection run at a much later clock. -/
theorem cleanup_old_tasks_spec_witness :
    (("j", { mkBrowserTask "j" "d" "u" 0 with status := .running }) ∈
        cleanup_old_tasks
          [("j", { mkBrowserTask "j" "d" "u" 0 with status := .running })] 24 1000000 ↔
      ("j", { mkBrowserTask "j" "d" "u" 0 with status := .running }) ∈
        [("j", { mkBrowserTask "j" "d" "u" 0 with status := .running })] ∧
        ¬(TaskStatus.isTerminal
            { mkBrowserTask "j" "d" "u" 0 with status := .running }.status = true ∧
          ∃ c : Nat, { mkBrowserTask "j" "d" "u" 0 with status := .running }.completed_at
              = some c ∧ (c : Int) < (1000000 : Int) - (24 : Int) * 3600)) ∧
    (({ mkBrowserTask "j" "d" "u" 0 with status := .running }.status = .pending ∨
      { mkBrowserTask "j" "d" "u" 0 with status := .running }.status = .running) →
      (("j", { mkBrowserTask "j" "d" "u" 0 with status := .running }) ∈
          cleanup_old_tasks
            [("j", { mkBrowserTask "j" "d" "u" 0 with status := .running })] 24 1000000 ↔
        ("j", { mkBrowserTask "j" "d" "u" 0 with status := .running }) ∈
          [("j", { mkBrowserTask "j" "d" "u" 0 with status := .running })])) :=
  cleanup_old_tasks_spec
    [("j", { mkBrowserTask "j" "d" "u" 0 with status := .running })] 24 1000000 "j"
    { mkBrowserTask "j" "d" "u" 0 with status := .running }

/-! ## Embedding of the agent loop in `browser_agent.py`

The decision service (`gemini_client.models.generate_content`) is abstracted
as a function from the turn index to a `Decision`; the browser is abstracted
to the state it contributes to the claims: the current URL, a counter of
pixel captures (each `page.screenshot` call yields a fresh snapshot
identity), persisted artifacts, the conversation contents, the progress log
and a clock for timestamps. -/

/-- One function call requested by the decision service; `failMsg` is the
message of the contained per-action exception, if the browser operation
for this call raises (caught at lines 373-375 of `browser_agent.py`). -/
structure FnCall where
  name : String
  failMsg : Option String
deriving DecidableEq

/-- The decision service's response to one turn: an exception raised by the
call itself, a no-function-call final answer, or a list of function calls. -/
inductive Decision where
  | raiseErr (msg : String)
  | final (text : String)
  | calls (fns : List FnCall)
deriving DecidableEq

/-- Whether the response contains function calls (`has_function_calls`). -/
def Decision.isCalls : Decision → Bool
  | .calls _ => true
  | _ => false

/-- One entry of the function-response list built by
`_get_gemini_function_responses`: name, current URL, the contained error
if any, and the snapshot attached as inline data. -/
structure FnResponse where
  name : String
  url : String
  error : Option String
  snapshot : Nat
deriving DecidableEq

/-- One element of the `contents` conversation list. -/
inductive Content where
  | userText (text : String)
  | userSnap (snap : Nat)
  | model (d : Decision)
  | responses (rs : List FnResponse)
deriving DecidableEq

/-- One persisted screenshot file `step_<seq>_<label>_<time>.png`;
mid-run artifacts carry the empty label. -/
structure Artifact where
  step : Nat
  label : String
  snap : Nat
deriving DecidableEq

/-- The state of a `GeminiBrowserAgent` together with its abstracted page. -/
structure AgentState where
  url : String
  progress : List ProgEvent
  screenshot_counter : Nat
  nextSnap : Nat
  artifacts : List Artifact
  contents : List Content
  clock : Nat
deriving DecidableEq

/-- Agent state after `__init__` and navigation to the starting URL. -/
def mkAgentState (url : String) : AgentState :=
  { url := url
    progress := []
    screenshot_counter := 0
    nextSnap := 0
    artifacts := []
    contents := []
    clock := 0 }

/-- `GeminiBrowserAgent._add_progress`: appends one event with the current
timestamp. -/
def addProgress (st : AgentState) (message event_type : String) : AgentState :=
  { st with
    progress := st.progress ++
      [{ timestamp := st.clock, type := event_type, message := message }]
    clock := st.clock + 1 }

/-- One `page.screenshot` call: returns a fresh snapshot identity. -/
def takeScreenshot (st : AgentState) : Nat × AgentState :=
  (st.nextSnap, { st with nextSnap := st.nextSnap + 1 })

/-- Persisting a snapshot under `step_<counter>_<label>_<time>.png` and
incrementing `screenshot_counter`. -/
def saveArtifact (st : AgentState) (label : String) (snap : Nat) : AgentState :=
  { st with
    artifacts := st.artifacts ++ [{ step := st.screenshot_counter, label := label, snap := snap }]
    screenshot_counter := st.screenshot_counter + 1 }

/-- `GeminiBrowserAgent._execute_gemini_function_calls`: per call, appends a
progress event of type `"function_call"` and records the (name, contained
error) pair. -/
def executeFunctionCalls (st : AgentState) (fns : List FnCall) :
    List (String × Option String) × AgentState :=
  match fns with
  | [] => ([], st)
  | f :: rest =>
    let n := f.name
    let st := addProgress st s!"Action: {n}" "function_call"
    let (results, st) := executeFunctionCalls st rest
    ((f.name, f.failMsg) :: results, st)

/-- `GeminiBrowserAgent._get_gemini_function_responses`: captures one fresh
snapshot and attaches it to every response. -/
def getFunctionResponses (st : AgentState) (results : List (String × Option String)) :
    List FnResponse × AgentState :=
  let (snap, st') := takeScreenshot st
  (results.map (fun r => { name := r.1, url := st.url, error := r.2, snapshot := snap }),
    st')

/-- Outcome of one turn of the loop body. -/
inductive TurnResult where
  | finished (text : String) (st : AgentState)
  | raised (msg : String) (st : AgentState)
  | next (st : AgentState)
deriving DecidableEq

/-- The body of one iteration of the `for turn in range(max_turns)` loop in
`_run_browser_automation_loop` (lines 202-269). -/
def loopStep (svc : Nat → Decision) (max_turns turn : Nat) (st : AgentState) :
    TurnResult :=
  let st := addProgress st s!"Turn {turn + 1}/{max_turns}" "turn"
  match svc turn with
  | .raiseErr e => .raised e st
  | .final text =>
    let st := { st with contents := st.contents ++ [.model (.final text)] }
    let (snap, st) := takeScreenshot st
    let st := saveArtifact st "final" snap
    .finished text st
  | .calls fns =>
    let st := { st with contents := st.contents ++ [.model (.calls fns)] }
    let st := addProgress st "Executing browser actions" "action"
    let (results, st) := executeFunctionCalls st fns
    let (frs, st) := getFunctionResponses st results
    let (snap2, st) := takeScreenshot st
    let st := saveArtifact st "" snap2
    let st := { st with contents := st.contents ++ [.responses frs] }
    .next st

/-- The sentinel returned when the turn budget is exhausted (line 272). -/
def maxTurnsMsg (max_turns : Nat) : String :=
  s!"Task reached maximum turns ({max_turns}). Please check browser state."

/-- The turn loop, by structural recursion on the number of remaining
turns; `turn` is the current index.  An `.error` value models an exception
propagating out of the loop (the `raise` at line 269). -/
def runLoopAux (svc : Nat → Decision) (max_turns : Nat) :
    Nat → Nat → AgentState → Except (String × AgentState) (String × AgentState)
  | _, 0, st => .ok (maxTurnsMsg max_turns, st)
  | turn, rem + 1, st =>
    match loopStep svc max_turns turn st with
    | .finished text st => .ok (text, st)
    | .raised e st => .error (e, st)
    | .next st => runLoopAux svc max_turns (turn + 1) rem st

/-- `GeminiBrowserAgent._run_browser_automation_loop`: initial screenshot
persisted as the `"initial"` artifact, conversation seeded with task text
and snapshot, a `"info"` progress event, then the turn loop. -/
def run_browser_automation_loop (svc : Nat → Decision) (task : String)
    (max_turns : Nat) (st : AgentState) :
    Except (String × AgentState) (String × AgentState) :=
  let (initial_screenshot, st) := takeScreenshot st
  let st := saveArtifact st "initial" initial_screenshot
  let st := { st with contents := st.contents ++ [.userText task, .userSnap initial_screenshot] }
  let st := addProgress st "Started browser automation" "info"
  runLoopAux svc max_turns 0 max_turns st

/-- The final agent state carried by either outcome of the loop. -/
def stateOf : Except (String × AgentState) (String × AgentState) → AgentState
  | .ok (_, st) => st
  | .error (_, st) => st

/-- `GeminiBrowserAgent.execute_task`: runs the loop inside a `try` that
catches every exception; returns the result dictionary together with the
agent's `progress_updates` after the run (read by the task manager).  In
the source the loop is invoked with its default `max_turns = 30`; the
budget is kept as a parameter here and instantiated with 30 where the
deployed behaviour is stated. -/
def execute_task (svc : Nat → Decision) (task url : String) (max_turns : Nat) :
    ExecResult × List ProgEvent :=
  match run_browser_automation_loop svc task max_turns (mkAgentState url) with
  | .ok (text, st) =>
    ({ ok := true, data := some text, error := none, progress := some st.progress },
      st.progress)
  | .error (e, st) =>
    ({ ok := false, data := none, error := some e, progress := none }, st.progress)

/-! ## Job lifecycle operations of `BrowserTaskManager`

The interleaving of manager calls and the background `_execute_task`
thread is modelled as a trace of atomic operations (each Python block runs
under `self._lock`), applied in sequence to the task table. -/

/-- One atomic operation on the task table.  `loopFinish` is the success
branch of `_execute_task` (lines 170-174): it stores whatever
`execute_task` returned, copies the agent's progress, and marks the task
completed — unconditionally.  `loopRaise` is the except branch
(lines 176-180), reached only when an exception escapes `execute_task`. -/
inductive JobOp where
  | create (task_id task_description url : String)
  | start (task_id : String)
  | loopFinish (task_id : String) (result : ExecResult) (agentProgress : List ProgEvent)
  | loopRaise (task_id : String) (error : String)
  | cancel (task_id : String)
deriving DecidableEq

/-- Effect of one operation at wall-clock time `now`. -/
def applyOp (tasks : TaskTable) (op : JobOp) (now : Nat) : TaskTable :=
  match op with
  | .create id desc url =>
    match tasks.lookup id with
    | some _ => updateTask tasks id (mkBrowserTask id desc url now)
    | none => tasks ++ [(id, mkBrowserTask id desc url now)]
  | .start id =>
    match tasks.lookup id with
    | none => tasks
    | some t =>
      if t.status = .pending then
        updateTask tasks id { t with status := .running, started_at := some now }
      else tasks
  | .loopFinish id r prog =>
    match tasks.lookup id with
    | none => tasks
    | some t =>
      updateTask tasks id
        { t with result := some r, progress_updates := prog,
                 status := .completed, completed_at := some now }
  | .loopRaise id e =>
    match tasks.lookup id with
    | none => tasks
    | some t =>
      updateTask tasks id
        { t with error := some e, status := .failed, completed_at := some now }
  | .cancel id => (cancel_task tasks id now).2

/-- Applying a timed trace of operations in order. -/
def runOps : TaskTable → List (JobOp × Nat) → TaskTable
  | tasks, [] => tasks
  | tasks, (op, now) :: rest => runOps (applyOp tasks op now) rest

/-- Whether a timed operation is the single terminating write of the
background thread executing job `id`. -/
def isLoopEnd (id : String) : JobOp × Nat → Bool
  | (.loopFinish tid _ _, _) => tid == id
  | (.loopRaise tid _, _) => tid == id
  | _ => false

/-- A trace is well formed when each job's background thread terminates at
most once (in the source, `start_task` spawns one thread per job and
`_execute_task` runs exactly one of its two terminating branches). -/
def TraceWF (ops : List (JobOp × Nat)) : Prop :=
  ∀ id, (ops.filter (isLoopEnd id)).length ≤ 1

/-- Pointwise effect of one operation on the record stored under `id`. -/
def opEffect (op : JobOp) (now : Nat) (id : String) (cur : Option BrowserTask) :
    Option BrowserTask :=
  match op with
  | .create cid desc url =>
    if cid = id then some (mkBrowserTask cid desc url now) else cur
  | .start sid =>
    if sid = id then
      match cur with
      | some t =>
        if t.status = .pending then
          some { t with status := .running, started_at := some now }
        else some t
      | none => none
    else cur
  | .loopFinish fid r prog =>
    if fid = id then
      match cur with
      | some t =>
        some { t with result := some r, progress_updates := prog,
                      status := .completed, completed_at := some now }
      | none => none
    else cur
  | .loopRaise fid e =>
    if fid = id then
      match cur with
      | some t =>
        some { t with error := some e, status := .failed, completed_at := some now }
      | none => none
    else cur
  | .cancel cid =>
    if cid = id then
      match cur with
      | some t =>
        if t.status = .pending ∨ t.status = .running then
          some { t with status := .cancelled, completed_at := some now }
        else some t
      | none => none
    else cur

theorem lookup_updateTask_self :
    ∀ (tasks : TaskTable) (id : String) (t t' : BrowserTask),
      tasks.lookup id = some t → (updateTask tasks id t').lookup id = some t'
  | [], id, t, t', h => by simp [List.lookup] at h
  | (k, v) :: rest, id, t, t', h => by
    by_cases hp : k = id
    · simp only [updateTask, List.map_cons, if_pos hp, List.lookup_cons, beq_self_eq_true]
    · have hne : (id == k) = false := beq_false_of_ne (fun hc => hp hc.symm)
      rw [List.lookup_cons, hne] at h
      simp only [updateTask, List.map_cons, if_neg hp, List.lookup_cons, hne]
      exact lookup_updateTask_self rest id t t' h

theorem lookup_updateTask_ne :
    ∀ (tasks : TaskTable) (id id' : String) (t' : BrowserTask), id' ≠ id →
      (updateTask tasks id t').lookup id' = tasks.lookup id'
  | [], _, _, _, _ => rfl
  | (k, v) :: rest, id, id', t', h => by
    by_cases hp : k = id
    · have hne : (id' == id) = false := beq_false_of_ne h
      have hne2 : (id' == k) = false := beq_false_of_ne (fun hc => h (hc.trans hp))
      simp only [updateTask, List.map_cons, if_pos hp, List.lookup_cons, hne, hne2]
      exact lookup_updateTask_ne rest id id' t' h
    · simp only [updateTask, List.map_cons, if_neg hp, List.lookup_cons]
      cases hc : (id' == k) with
      | true => rfl
      | false => exact lookup_updateTask_ne rest id id' t' h

theorem lookup_append_self :
    ∀ (tasks : TaskTable) (id : String) (t : BrowserTask),
      tasks.lookup id = none → (tasks ++ [(id, t)]).lookup id = some t
  | [], id, t, _ => by simp [List.lookup_cons]
  | (k, v) :: rest, id, t, h => by
    rw [List.lookup_cons] at h
    cases hc : (id == k) with
    | true => rw [hc] at h; simp at h
    | false =>
      rw [hc] at h
      simp only [List.cons_append, List.lookup_cons, hc]
      exact lookup_append_self rest id t h

theorem lookup_append_ne :
    ∀ (tasks : TaskTable) (id id' : String) (t : BrowserTask), id' ≠ id →
      (tasks ++ [(id, t)]).lookup id' = tasks.lookup id'
  | [], id, id', t, h => by
    have : (id' == id) = false := beq_false_of_ne h
    simp [List.lookup_cons, this]
  | (k, v) :: rest, id, id', t, h => by
    simp only [List.cons_append, List.lookup_cons]
    cases hc : (id' == k) with
    | true => rfl
    | false => exact lookup_append_ne rest id id' t h

/-- The record visible under `id` after one operation is `opEffect` applied
to the record visible before it. -/
theorem lookup_applyOp (tasks : TaskTable) (op : JobOp) (now : Nat) (id : String) :
    (applyOp tasks op now).lookup id = opEffect op now id (tasks.lookup id) := by
  cases op with
  | create cid desc url =>
    cases hl : tasks.lookup cid with
    | some t0 =>
      have h1 : applyOp tasks (.create cid desc url) now =
          updateTask tasks cid (mkBrowserTask cid desc url now) := by
        simp [applyOp, hl]
      by_cases hc : cid = id
      · subst hc
        have h2 : opEffect (.create cid desc url) now cid (tasks.lookup cid) =
            some (mkBrowserTask cid desc url now) := by simp [opEffect]
        rw [h1, h2]
        exact lookup_updateTask_self tasks cid t0 _ hl
      · have h2 : opEffect (.create cid desc url) now id (tasks.lookup id) =
            tasks.lookup id := by simp [opEffect, hc]
        rw [h1, h2]
        exact lookup_updateTask_ne tasks cid id _ (fun h => hc h.symm)
    | none =>
      have h1 : applyOp tasks (.create cid desc url) now =
          tasks ++ [(cid, mkBrowserTask cid desc url now)] := by
        simp [applyOp, hl]
      by_cases hc : cid = id
      · subst hc
        have h2 : opEffect (.create cid desc url) now cid (tasks.lookup cid) =
            some (mkBrowserTask cid desc url now) := by simp [opEffect]
        rw [h1, h2]
        exact lookup_append_self tasks cid _ hl
      · have h2 : opEffect (.create cid desc url) now id (tasks.lookup id) =
            tasks.lookup id := by simp [opEffect, hc]
        rw [h1, h2]
        exact lookup_append_ne tasks cid id _ (fun h => hc h.symm)
  | start sid =>
    cases hl : tasks.lookup sid with
    | none =>
      have h1 : applyOp tasks (.start sid) now = tasks := by simp [applyOp, hl]
      by_cases hc : sid = id
      · subst hc
        rw [h1]
        simp [opEffect, hl]
      · rw [h1]
        simp [opEffect, hc]
    | some t0 =>
      by_cases hs : t0.status = .pending
      · have h1 : applyOp tasks (.start sid) now =
            updateTask tasks sid { t0 with status := .running, started_at := some now } := by
          simp [applyOp, hl, hs]
        by_cases hc : sid = id
        · subst hc
          have h2 : opEffect (.start sid) now sid (tasks.lookup sid) =
              some { t0 with status := .running, started_at := some now } := by
            simp [opEffect, hl, hs]
          rw [h1, h2]
          exact lookup_updateTask_self tasks sid t0 _ hl
        · have h2 : opEffect (.start sid) now id (tasks.lookup id) =
              tasks.lookup id := by simp [opEffect, hc]
          rw [h1, h2]
          exact lookup_updateTask_ne tasks sid id _ (fun h => hc h.symm)
      · have h1 : applyOp tasks (.start sid) now = tasks := by simp [applyOp, hl, hs]
        by_cases hc : sid = id
        · subst hc
          rw [h1]
          simp [opEffect, hl, hs]
        · rw [h1]
          simp [opEffect, hc]
  | loopFinish fid r prog =>
    cases hl : tasks.lookup fid with
    | none =>
      have h1 : applyOp tasks (.loopFinish fid r prog) now = tasks := by
        simp [applyOp, hl]
      by_cases hc : fid = id
      · subst hc
        rw [h1]
        simp [opEffect, hl]
      · rw [h1]
        simp [opEffect, hc]
    | some t0 =>
      have h1 : applyOp tasks (.loopFinish fid r prog) now =
          updateTask tasks fid
            { t0 with result := some r, progress_updates := prog,
                      status := .completed, completed_at := some now } := by
        simp [applyOp, hl]
      by_cases hc : fid = id
      · subst hc
        have h2 : opEffect (.loopFinish fid r prog) now fid (tasks.lookup fid) =
            some { t0 with result := some r, progress_updates := prog,
                           status := .completed, completed_at := some now } := by
          simp [opEffect, hl]
        rw [h1, h2]
        exact lookup_updateTask_self tasks fid t0 _ hl
      · have h2 : opEffect (.loopFinish fid r prog) now id (tasks.lookup id) =
            tasks.lookup id := by simp [opEffect, hc]
        rw [h1, h2]
        exact lookup_updateTask_ne tasks fid id _ (fun h => hc h.symm)
  | loopRaise fid e =>
    cases hl : tasks.lookup fid with
    | none =>
      have h1 : applyOp tasks (.loopRaise fid e) now = tasks := by
        simp [applyOp, hl]
      by_cases hc : fid = id
      · subst hc
        rw [h1]
        simp [opEffect, hl]
      · rw [h1]
        simp [opEffect, hc]
    | some t0 =>
      have h1 : applyOp tasks (.loopRaise fid e) now =
          updateTask tasks fid
            { t0 with error := some e, status := .failed, completed_at := some now } := by
        simp [applyOp, hl]
      by_cases hc : fid = id
      · subst hc
        have h2 : opEffect (.loopRaise fid e) now fid (tasks.lookup fid) =
            some { t0 with error := some e, status := .failed,
                           completed_at := some now } := by
          simp [opEffect, hl]
        rw [h1, h2]
        exact lookup_updateTask_self tasks fid t0 _ hl
      · have h2 : opEffect (.loopRaise fid e) now id (tasks.lookup id) =
            tasks.lookup id := by simp [opEffect, hc]
        rw [h1, h2]
        exact lookup_updateTask_ne tasks fid id _ (fun h => hc h.symm)
  | cancel cid =>
    cases hl : tasks.lookup cid with
    | none =>
      have h1 : applyOp tasks (.cancel cid) now = tasks := by
        simp [applyOp, cancel_task, hl]
      by_cases hc : cid = id
      · subst hc
        rw [h1]
        simp [opEffect, hl]
      · rw [h1]
        simp [opEffect, hc]
    | some t0 =>
      by_cases hs : t0.status = .pending ∨ t0.status = .running
      · have h1 : applyOp tasks (.cancel cid) now =
            updateTask tasks cid
              { t0 with status := .cancelled, completed_at := some now } := by
          simp [applyOp, cancel_task, hl, hs]
        by_cases hc : cid = id
        · subst hc
          have h2 : opEffect (.cancel cid) now cid (tasks.lookup cid) =
              some { t0 with status := .cancelled, completed_at := some now } := by
            simp [opEffect, hl, hs]
          rw [h1, h2]
          exact lookup_updateTask_self tasks cid t0 _ hl
        · have h2 : opEffect (.cancel cid) now id (tasks.lookup id) =
              tasks.lookup id := by simp [opEffect, hc]
          rw [h1, h2]
          exact lookup_updateTask_ne tasks cid id _ (fun h => hc h.symm)
      · have h1 : applyOp tasks (.cancel cid) now = tasks := by
          simp [applyOp, cancel_task, hl, hs]
        by_cases hc : cid = id
        · subst hc
          rw [h1]
          simp [opEffect, hl, hs]
        · rw [h1]
          simp [opEffect, hc]

/-- The result/error field discipline of one record. -/
def RecordInv (t : BrowserTask) : Prop :=
  (t.result ≠ none ↔ t.status = .completed) ∧ (t.error ≠ none ↔ t.status = .failed)

/-- A record whose background loop has not yet delivered its outcome. -/
def Untouched (t : BrowserTask) : Prop := t.result = none ∧ t.error = none

theorem traceWF_tail {p : JobOp × Nat} {rest : List (JobOp × Nat)}
    (h : TraceWF (p :: rest)) : TraceWF rest := by
  intro id
  have hp := h id
  simp only [List.filter_cons] at hp
  split at hp
  · simp only [List.length_cons] at hp
    omega
  · exact hp

/-- Core invariant of the job table: along any well-formed trace, every
reachable record satisfies `RecordInv`. -/
theorem runOps_inv :
    ∀ (ops : List (JobOp × Nat)) (tasks : TaskTable),
      TraceWF ops →
      (∀ id t, tasks.lookup id = some t → RecordInv t) →
      (∀ id, (∃ p ∈ ops, isLoopEnd id p = true) →
        ∀ t, tasks.lookup id = some t → Untouched t) →
      ∀ id t, (runOps tasks ops).lookup id = some t → RecordInv t := by
  intro ops
  induction ops with
  | nil =>
    intro tasks _ hinv _ id t h
    exact hinv id t h
  | cons p rest ih =>
    rintro tasks hwf hinv hun id t h
    obtain ⟨op, now⟩ := p
    refine ih (applyOp tasks op now) (traceWF_tail hwf) ?_ ?_ id t h
    · -- RecordInv holds of every record after the head operation
      intro id0 t0 h0
      rw [lookup_applyOp] at h0
      cases op with
      | create cid desc url =>
        by_cases hc : cid = id0
        · simp only [opEffect, if_pos hc] at h0
          cases h0
          constructor <;> simp [mkBrowserTask]
        · simp only [opEffect, if_neg hc] at h0
          exact hinv id0 t0 h0
      | start sid =>
        by_cases hc : sid = id0
        · simp only [opEffect, if_pos hc] at h0
          cases hl : tasks.lookup id0 with
          | none => simp [hl] at h0
          | some t1 =>
            have hi := hinv id0 t1 hl
            by_cases hs : t1.status = .pending
            · simp only [hl, if_pos hs] at h0
              cases h0
              obtain ⟨hr, he⟩ := hi
              constructor
              · simp only
                rw [hr, hs]
                constructor <;> intro hx <;> cases hx
              · simp only
                rw [he, hs]
                constructor <;> intro hx <;> cases hx
            · simp only [hl, if_neg hs] at h0
              cases h0
              exact hi
        · simp only [opEffect, if_neg hc] at h0
          exact hinv id0 t0 h0
      | loopFinish fid r prog =>
        by_cases hc : fid = id0
        · simp only [opEffect, if_pos hc] at h0
          cases hl : tasks.lookup id0 with
          | none => simp [hl] at h0
          | some t1 =>
            have hu : Untouched t1 := by
              refine hun id0 ⟨(.loopFinish fid r prog, now), List.mem_cons_self _ _, ?_⟩ t1 hl
              simp [isLoopEnd, hc]
            simp only [hl] at h0
            cases h0
            obtain ⟨_, he⟩ := hu
            constructor
            · simp
            · simp [he]
        · simp only [opEffect, if_neg hc] at h0
          exact hinv id0 t0 h0
      | loopRaise fid e =>
        by_cases hc : fid = id0
        · simp only [opEffect, if_pos hc] at h0
          cases hl : tasks.lookup id0 with
          | none => simp [hl] at h0
          | some t1 =>
            have hu : Untouched t1 := by
              refine hun id0 ⟨(.loopRaise fid e, now), List.mem_cons_self _ _, ?_⟩ t1 hl
              simp [isLoopEnd, hc]
            simp only [hl] at h0
            cases h0
            obtain ⟨hr, _⟩ := hu
            constructor
            · simp [hr]
            · simp
        · simp only [opEffect, if_neg hc] at h0
          exact hinv id0 t0 h0
      | cancel cid =>
        by_cases hc : cid = id0
        · simp only [opEffect, if_pos hc] at h0
          cases hl : tasks.lookup id0 with
          | none => simp [hl] at h0
          | some t1 =>
            have hi := hinv id0 t1 hl
            by_cases hs : t1.status = .pending ∨ t1.status = .running
            · simp only [hl, if_pos hs] at h0
              cases h0
              obtain ⟨hr, he⟩ := hi
              have hrn : t1.result = none := by
                by_contra hx
                have := hr.1 hx
                rcases hs with h' | h' <;> rw [h'] at this <;> cases this
              have hen : t1.error = none := by
                by_contra hx
                have := he.1 hx
                rcases hs with h' | h' <;> rw [h'] at this <;> cases this
              constructor
              · simp [hrn]
              · simp [hen]
            · simp only [hl, if_neg hs] at h0
              cases h0
              exact hi
        · simp only [opEffect, if_neg hc] at h0
          exact hinv id0 t0 h0
    · -- Untouched is maintained for ids whose loop has not yet ended
      intro id0 hrest t0 h0
      have hcons : ∃ q ∈ (op, now) :: rest, isLoopEnd id0 q = true := by
        obtain ⟨q, hq, hqe⟩ := hrest
        exact ⟨q, List.mem_cons_of_mem _ hq, hqe⟩
      rw [lookup_applyOp] at h0
      cases op with
      | create cid desc url =>
        by_cases hc : cid = id0
        · simp only [opEffect, if_pos hc] at h0
          cases h0
          exact ⟨rfl, rfl⟩
        · simp only [opEffect, if_neg hc] at h0
          exact hun id0 hcons t0 h0
      | start sid =>
        by_cases hc : sid = id0
        · simp only [opEffect, if_pos hc] at h0
          cases hl : tasks.lookup id0 with
          | none => simp [hl] at h0
          | some t1 =>
            have hu := hun id0 hcons t1 hl
            by_cases hs : t1.status = .pending
            · simp only [hl, if_pos hs] at h0
              cases h0
              exact ⟨hu.1, hu.2⟩
            · simp only [hl, if_neg hs] at h0
              cases h0
              exact hu
        · simp only [opEffect, if_neg hc] at h0
          exact hun id0 hcons t0 h0
      | loopFinish fid r prog =>
        by_cases hc : fid = id0
        · exfalso
          have hw := hwf id0
          obtain ⟨q, hq, hqe⟩ := hrest
          have h1 : isLoopEnd id0 (JobOp.loopFinish fid r prog, now) = true := by
            simp [isLoopEnd, hc]
          have hmem : q ∈ rest.filter (isLoopEnd id0) := List.mem_filter.2 ⟨hq, hqe⟩
          have hpos : 0 < (rest.filter (isLoopEnd id0)).length :=
            List.length_pos_of_mem hmem
          simp only [List.filter_cons, h1, if_true, List.length_cons] at hw
          omega
        · simp only [opEffect, if_neg hc] at h0
          exact hun id0 hcons t0 h0
      | loopRaise fid e =>
        by_cases hc : fid = id0
        · exfalso
          have hw := hwf id0
          obtain ⟨q, hq, hqe⟩ := hrest
          have h1 : isLoopEnd id0 (JobOp.loopRaise fid e, now) = true := by
            simp [isLoopEnd, hc]
          have hmem : q ∈ rest.filter (isLoopEnd id0) := List.mem_filter.2 ⟨hq, hqe⟩
          have hpos : 0 < (rest.filter (isLoopEnd id0)).length :=
            List.length_pos_of_mem hmem
          simp only [List.filter_cons, h1, if_true, List.length_cons] at hw
          omega
        · simp only [opEffect, if_neg hc] at h0
          exact hun id0 hcons t0 h0
      | cancel cid =>
        by_cases hc : cid = id0
        · simp only [opEffect, if_pos hc] at h0
          cases hl : tasks.lookup id0 with
          | none => simp [hl] at h0
          | some t1 =>
            have hu := hun id0 hcons t1 hl
            by_cases hs : t1.status = .pending ∨ t1.status = .running
            · simp only [hl, if_pos hs] at h0
              cases h0
              exact ⟨hu.1, hu.2⟩
            · simp only [hl, if_neg hs] at h0
              cases h0
              exact hu
        · simp only [opEffect, if_neg hc] at h0
          exact hun id0 hcons t0 h0

/-! ### Claim C1: terminal-status immutability (code bug)

`_execute_task` (lines 170-180 of `task_manager.py`) writes its completion
outcome without re-checking the status, so a record already cancelled is
overwritten by the late-arriving loop result, contradicting the spec's
"a terminal record must never be overwritten by a late-arriving loop
result". -/

/-- The result delivered by the background loop in the refuting
interleaving. -/
def c1Result : ExecResult :=
  { ok := true, data := some "done", error := none, progress := some [] }

/-- C1: in the interleaving create, start, cancel (terminal at time 2),
loop-finish (time 3), the record is first cancelled with completion time 2,
and the loop's late write then flips it to completed with a replaced result
and completion time — the terminal record is not immutable. -/
theorem late_loop_result_overwrites_cancelled :
    (((runOps [] [(.create "j" "task" "u", 0), (.start "j", 1),
        (.cancel "j", 2)]).lookup "j").map BrowserTask.status = some .cancelled) ∧
    (((runOps [] [(.create "j" "task" "u", 0), (.start "j", 1),
        (.cancel "j", 2)]).lookup "j").map BrowserTask.completed_at = some (some 2)) ∧
    (((runOps [] [(.create "j" "task" "u", 0), (.start "j", 1), (.cancel "j", 2),
        (.loopFinish "j" c1Result [], 3)]).lookup "j").map BrowserTask.status
      = some .completed) ∧
    (((runOps [] [(.create "j" "task" "u", 0), (.start "j", 1), (.cancel "j", 2),
        (.loopFinish "j" c1Result [], 3)]).lookup "j").map BrowserTask.result
      = some (some c1Result)) ∧
    (((runOps [] [(.create "j" "task" "u", 0), (.start "j", 1), (.cancel "j", 2),
        (.loopFinish "j" c1Result [], 3)]).lookup "j").map BrowserTask.completed_at
      = some (some 3)) := by
  decide

/-! ### Claim C2: per-turn error routing and result/error discipline -/

/-- C2 counterexample: when the decision-service call raises on the first
turn, `execute_task` catches it and returns `{ok: false, error}`, and the
job manager then marks the job `completed` with an unset `error` field —
not `failed` with the captured message as the claim states. -/
theorem per_turn_error_marks_job_completed :
    ((execute_task (fun _ => .raiseErr "boom") "t" "u" 30).1.ok = false) ∧
    ((execute_task (fun _ => .raiseErr "boom") "t" "u" 30).1.error = some "boom") ∧
    (((runOps [] [(.create "j" "t" "u", 0), (.start "j", 1),
        (.loopFinish "j" (execute_task (fun _ => .raiseErr "boom") "t" "u" 30).1
          (execute_task (fun _ => .raiseErr "boom") "t" "u" 30).2, 2)]).lookup "j").map
      BrowserTask.status = some .completed) ∧
    (((runOps [] [(.create "j" "t" "u", 0), (.start "j", 1),
        (.loopFinish "j" (execute_task (fun _ => .raiseErr "boom") "t" "u" 30).1
          (execute_task (fun _ => .raiseErr "boom") "t" "u" 30).2, 2)]).lookup "j").map
      BrowserTask.error = some none) := by
  decide

/-- C2 (amended): a per-turn error propagating out of the loop is caught by
`execute_task` and returned as `{ok: false, error: message}`; the job
manager records any returned result by marking the job completed with that
result stored (the `failed` state is reserved for exceptions escaping
`execute_task`); and along every well-formed operation trace, `result` is
set iff status = completed and `error` is set iff status = failed. -/
theorem error_routing_and_field_discipline :
    (∀ (svc : Nat → Decision) (task url : String) (max_turns : Nat) (e : String)
        (st' : AgentState),
      run_browser_automation_loop svc task max_turns (mkAgentState url) = .error (e, st') →
      (execute_task svc task url max_turns).1 =
        { ok := false, data := none, error := some e, progress := none }) ∧
    (∀ (tasks : TaskTable) (id : String) (t : BrowserTask) (r : ExecResult)
        (prog : List ProgEvent) (now : Nat),
      tasks.lookup id = some t →
      (applyOp tasks (.loopFinish id r prog) now).lookup id =
        some { t with result := some r, progress_updates := prog,
                      status := .completed, completed_at := some now }) ∧
    (∀ ops : List (JobOp × Nat), TraceWF ops →
      ∀ (id : String) (t : BrowserTask), (runOps [] ops).lookup id = some t →
        ((t.result ≠ none ↔ t.status = .completed) ∧
          (t.error ≠ none ↔ t.status = .failed))) := by
  refine ⟨?_, ?_, ?_⟩
  · intro svc task url max_turns e st' h
    unfold execute_task
    rw [h]
  · intro tasks id t r prog now hl
    rw [lookup_applyOp]
    simp [opEffect, hl]
  · intro ops hwf id t h
    exact runOps_inv ops [] hwf (fun id0 t0 h0 => by simp [List.lookup] at h0)
      (fun id0 _ t0 h0 => by simp [List.lookup] at h0) id t h

/-- Witness for C2 (amended) at concrete inputs. -/
theorem error_routing_and_field_discipline_witness :
    ((execute_task (fun _ => .raiseErr "x") "t" "u" 1).1 =
      { ok := false, data := none, error := some "x", progress := none }) ∧
    ((applyOp [("j", mkBrowserTask "j" "t" "u" 0)]
        (.loopFinish "j"
          { ok := true, data := some "ok", error := none, progress := some [] } [])
        5).lookup "j" =
      some { mkBrowserTask "j" "t" "u" 0 with
              result := some { ok := true, data := some "ok", error := none,
                               progress := some [] },
              progress_updates := [], status := .completed, completed_at := some 5 }) ∧
    (((mkBrowserTask "j" "t" "u" 0).result ≠ none ↔
        (mkBrowserTask "j" "t" "u" 0).status = .completed) ∧
      ((mkBrowserTask "j" "t" "u" 0).error ≠ none ↔
        (mkBrowserTask "j" "t" "u" 0).status = .failed)) :=
  ⟨error_routing_and_field_discipline.1 (fun _ => .raiseErr "x") "t" "u" 1 "x"
      (stateOf (run_browser_automation_loop (fun _ => .raiseErr "x") "t" 1
        (mkAgentState "u"))) rfl,
   error_routing_and_field_discipline.2.1 [("j", mkBrowserTask "j" "t" "u" 0)] "j"
      (mkBrowserTask "j" "t" "u" 0)
      { ok := true, data := some "ok", error := none, progress := some [] } [] 5 rfl,
   error_routing_and_field_discipline.2.2 [(.create "j" "t" "u", 0)]
      (by intro id; simp [isLoopEnd]) "j" (mkBrowserTask "j" "t" "u" 0) rfl⟩

/-! ## Characterization of the loop body -/

/-- The progress events appended by `executeFunctionCalls` for a list of
calls, starting at clock `c`. -/
def fnCallEvents (fns : List FnCall) (c : Nat) : List ProgEvent :=
  match fns with
  | [] => []
  | f :: rest =>
    let n := f.name
    { timestamp := c, type := "function_call", message := s!"Action: {n}" } ::
      fnCallEvents rest (c + 1)

/-- Number of `"turn"` events in a progress list. -/
def countTurnEvents (l : List ProgEvent) : Nat :=
  (l.filter (fun e => e.type == "turn")).length

theorem executeFunctionCalls_eq :
    ∀ (fns : List FnCall) (st : AgentState),
      executeFunctionCalls st fns =
        (fns.map (fun f => (f.name, f.failMsg)),
         { st with progress := st.progress ++ fnCallEvents fns st.clock,
                   clock := st.clock + fns.length }) := by
  intro fns
  induction fns with
  | nil =>
    intro st
    simp [executeFunctionCalls, fnCallEvents]
  | cons f rest ih =>
    intro st
    simp only [executeFunctionCalls, ih, addProgress, fnCallEvents, List.map_cons,
      List.length_cons]
    refine congrArg _ ?_
    have h1 : st.progress ++
        [{ timestamp := st.clock, type := "function_call",
           message := s!"Action: {f.name}" }] ++ fnCallEvents rest (st.clock + 1) =
        st.progress ++
          ({ timestamp := st.clock, type := "function_call",
             message := s!"Action: {f.name}" } :: fnCallEvents rest (st.clock + 1)) := by
      rw [List.append_assoc]
      rfl
    have h2 : st.clock + 1 + rest.length = st.clock + (rest.length + 1) := by omega
    rw [h1, h2]

theorem fnCallEvents_types :
    ∀ (fns : List FnCall) (c : Nat) (e : ProgEvent),
      e ∈ fnCallEvents fns c → e.type = "function_call" := by
  intro fns
  induction fns with
  | nil => intro c e h; simp [fnCallEvents] at h
  | cons f rest ih =>
    intro c e h
    simp only [fnCallEvents, List.mem_cons] at h
    rcases h with h | h
    · rw [h]
    · exact ih (c + 1) e h

theorem countTurnEvents_append (a b : List ProgEvent) :
    countTurnEvents (a ++ b) = countTurnEvents a + countTurnEvents b := by
  simp [countTurnEvents, List.filter_append]

theorem countTurnEvents_cons (a : ProgEvent) (l : List ProgEvent) :
    countTurnEvents (a :: l) =
      (if (a.type == "turn") = true then 1 else 0) + countTurnEvents l := by
  simp only [countTurnEvents, List.filter_cons]
  split
  · simp [Nat.add_comm]
  · simp

theorem countTurnEvents_fnCallEvents (fns : List FnCall) (c : Nat) :
    countTurnEvents (fnCallEvents fns c) = 0 := by
  induction fns generalizing c with
  | nil => simp [fnCallEvents, countTurnEvents]
  | cons f rest ih =>
    simp only [fnCallEvents]
    rw [← List.singleton_append, countTurnEvents_append, ih (c + 1)]
    have hb : (("function_call" : String) == "turn") = false := by decide
    simp [countTurnEvents, List.filter_cons, hb]

/-- Full characterization of a turn whose response contains function calls:
one progress event of type `"turn"`, one of type `"action"`, one
`"function_call"` event per call; one snapshot (`st.nextSnap`) captured
after the actions and attached to every outcome; then a second snapshot
(`st.nextSnap + 1`) captured and persisted as the turn artifact. -/
theorem loopStep_calls (svc : Nat → Decision) (max_turns turn : Nat)
    (st : AgentState) (fns : List FnCall) (h : svc turn = .calls fns) :
    loopStep svc max_turns turn st = .next
      { st with
          progress := st.progress ++
            ({ timestamp := st.clock, type := "turn",
               message := s!"Turn {turn + 1}/{max_turns}" } ::
             { timestamp := st.clock + 1, type := "action",
               message := "Executing browser actions" } ::
             fnCallEvents fns (st.clock + 2)),
          clock := st.clock + 2 + fns.length,
          contents := st.contents ++
            [.model (.calls fns),
             .responses (fns.map (fun f =>
               { name := f.name, url := st.url, error := f.failMsg,
                 snapshot := st.nextSnap }))],
          nextSnap := st.nextSnap + 2,
          screenshot_counter := st.screenshot_counter + 1,
          artifacts := st.artifacts ++
            [{ step := st.screenshot_counter, label := "",
               snap := st.nextSnap + 1 }] } := by
  simp only [loopStep, h, addProgress, executeFunctionCalls_eq, getFunctionResponses,
    takeScreenshot, saveArtifact, List.map_map]
  refine congrArg _ ?_
  have hp : st.progress ++
      [{ timestamp := st.clock, type := "turn",
         message := s!"Turn {turn + 1}/{max_turns}" }] ++
      [{ timestamp := st.clock + 1, type := "action",
         message := "Executing browser actions" }] ++
      fnCallEvents fns (st.clock + 2) =
      st.progress ++
        ({ timestamp := st.clock, type := "turn",
           message := s!"Turn {turn + 1}/{max_turns}" } ::
         { timestamp := st.clock + 1, type := "action",
           message := "Executing browser actions" } ::
         fnCallEvents fns (st.clock + 2)) := by
    rw [List.append_assoc, List.append_assoc]
    rfl
  have hc : st.contents ++ [Content.model (.calls fns)] ++
      [Content.responses (fns.map (fun f =>
        { name := f.name, url := st.url, error := f.failMsg,
          snapshot := st.nextSnap }))] =
      st.contents ++
        [Content.model (.calls fns),
         Content.responses (fns.map (fun f =>
           { name := f.name, url := st.url, error := f.failMsg,
             snapshot := st.nextSnap }))] := by
    rw [List.append_assoc]
    rfl
  have hk : st.clock + 1 + 1 = st.clock + 2 := by omega
  have hs : st.nextSnap + 1 + 1 = st.nextSnap + 2 := by omega
  rw [hk, hs, ← hp, ← hc]
  rfl

/-- A turn whose response is a no-function-call final answer. -/
theorem loopStep_final (svc : Nat → Decision) (max_turns turn : Nat)
    (st : AgentState) (text : String) (h : svc turn = .final text) :
    loopStep svc max_turns turn st = .finished text
      { st with
          progress := st.progress ++
            [{ timestamp := st.clock, type := "turn",
               message := s!"Turn {turn + 1}/{max_turns}" }],
          clock := st.clock + 1,
          contents := st.contents ++ [.model (.final text)],
          nextSnap := st.nextSnap + 1,
          screenshot_counter := st.screenshot_counter + 1,
          artifacts := st.artifacts ++
            [{ step := st.screenshot_counter, label := "final",
               snap := st.nextSnap }] } := by
  simp only [loopStep, h]
  rfl

/-- A turn on which the decision-service call raises. -/
theorem loopStep_raise (svc : Nat → Decision) (max_turns turn : Nat)
    (st : AgentState) (e : String) (h : svc turn = .raiseErr e) :
    loopStep svc max_turns turn st = .raised e
      { st with
          progress := st.progress ++
            [{ timestamp := st.clock, type := "turn",
               message := s!"Turn {turn + 1}/{max_turns}" }],
          clock := st.clock + 1 } := by
  simp only [loopStep, h, addProgress]

/-- The agent state carried by any outcome of one turn. -/
def TurnResult.state : TurnResult → AgentState
  | .finished _ st => st
  | .raised _ st => st
  | .next st => st

/-- One turn only appends progress events, and every appended event is of
type turn, action or function_call. -/
theorem loopStep_progress (svc : Nat → Decision) (max_turns turn : Nat)
    (st : AgentState) :
    ∃ l, (loopStep svc max_turns turn st).state.progress = st.progress ++ l ∧
      ∀ e ∈ l, e.type ∈ (["turn", "action", "function_call"] : List String) := by
  cases hd : svc turn with
  | raiseErr e =>
    rw [loopStep_raise svc max_turns turn st e hd]
    refine ⟨_, rfl, ?_⟩
    intro ev hev
    simp only [List.mem_singleton] at hev
    subst hev
    simp
  | final text =>
    rw [loopStep_final svc max_turns turn st text hd]
    refine ⟨_, rfl, ?_⟩
    intro ev hev
    simp only [List.mem_singleton] at hev
    subst hev
    simp
  | calls fns =>
    rw [loopStep_calls svc max_turns turn st fns hd]
    refine ⟨_, rfl, ?_⟩
    intro ev hev
    simp only [List.mem_cons] at hev
    rcases hev with h1 | h2 | h3
    · subst h1; simp
    · subst h2; simp
    · rw [fnCallEvents_types fns (st.clock + 2) ev h3]
      simp

/-- A turn whose response requests actions continues the loop and adds
exactly one `"turn"` progress event. -/
theorem loopStep_calls_next (svc : Nat → Decision) (max_turns turn : Nat)
    (st : AgentState) (hc : (svc turn).isCalls = true) :
    ∃ st1, loopStep svc max_turns turn st = .next st1 ∧
      countTurnEvents st1.progress = countTurnEvents st.progress + 1 := by
  cases hd : svc turn with
  | raiseErr e => rw [hd] at hc; cases hc
  | final text => rw [hd] at hc; cases hc
  | calls fns =>
    refine ⟨_, loopStep_calls svc max_turns turn st fns hd, ?_⟩
    have hb1 : (("turn" : String) == "turn") = true := by decide
    have hb2 : (("action" : String) == "turn") = false := by decide
    simp [countTurnEvents_append, countTurnEvents_cons, countTurnEvents_fnCallEvents,
      hb1, hb2]

/-- Along the turn loop the progress list only grows, with appended events
drawn from turn, action, function_call. -/
theorem runLoopAux_progress (svc : Nat → Decision) (max_turns : Nat) :
    ∀ (rem turn : Nat) (st : AgentState),
      ∃ l, (stateOf (runLoopAux svc max_turns turn rem st)).progress =
          st.progress ++ l ∧
        ∀ e ∈ l, e.type ∈ (["turn", "action", "function_call"] : List String) := by
  intro rem
  induction rem with
  | zero =>
    intro turn st
    exact ⟨[], by simp [runLoopAux, stateOf], by simp⟩
  | succ rem ih =>
    intro turn st
    obtain ⟨l1, hl1, hty1⟩ := loopStep_progress svc max_turns turn st
    cases hres : loopStep svc max_turns turn st with
    | finished text st1 =>
      rw [hres] at hl1
      exact ⟨l1, by simp [runLoopAux, hres, stateOf]; exact hl1, hty1⟩
    | raised e st1 =>
      rw [hres] at hl1
      exact ⟨l1, by simp [runLoopAux, hres, stateOf]; exact hl1, hty1⟩
    | next st1 =>
      rw [hres] at hl1
      simp only [TurnResult.state] at hl1
      obtain ⟨l2, hl2, hty2⟩ := ih (turn + 1) st1
      refine ⟨l1 ++ l2, ?_, ?_⟩
      · have : runLoopAux svc max_turns turn (rem + 1) st =
            runLoopAux svc max_turns (turn + 1) rem st1 := by
          simp [runLoopAux, hres]
        rw [this, hl2, hl1, List.append_assoc]
      · intro e he
        rcases List.mem_append.1 he with h | h
        · exact hty1 e h
        · exact hty2 e h

/-- If the decision service requests actions on every remaining turn, the
loop runs through all of them and returns the exhaustion sentinel, adding
one `"turn"` event per turn. -/
theorem runLoopAux_all_calls (svc : Nat → Decision) (max_turns : Nat) :
    ∀ (rem turn : Nat) (st : AgentState),
      (∀ t, turn ≤ t → t < turn + rem → (svc t).isCalls = true) →
      ∃ st', runLoopAux svc max_turns turn rem st = .ok (maxTurnsMsg max_turns, st') ∧
        countTurnEvents st'.progress = countTurnEvents st.progress + rem := by
  intro rem
  induction rem with
  | zero =>
    intro turn st _
    exact ⟨st, rfl, by omega⟩
  | succ rem ih =>
    intro turn st h
    have hc : (svc turn).isCalls = true := h turn (Nat.le_refl _) (by omega)
    obtain ⟨st1, hstep, hcnt⟩ := loopStep_calls_next svc max_turns turn st hc
    obtain ⟨st', hrun, hcount⟩ :=
      ih (turn + 1) st1 (fun t h1 h2 => h t (by omega) (by omega))
    refine ⟨st', ?_, by omega⟩
    have : runLoopAux svc max_turns turn (rem + 1) st =
        runLoopAux svc max_turns (turn + 1) rem st1 := by
      simp [runLoopAux, hstep]
    rw [this, hrun]

/-- The agent state right after `_run_browser_automation_loop` has taken
and persisted its initial screenshot, seeded the conversation and emitted
the start event, and before entering the turn loop. -/
def initState (task url : String) : AgentState :=
  { url := url
    progress := [{ timestamp := 0, type := "info",
                   message := "Started browser automation" }]
    screenshot_counter := 1
    nextSnap := 1
    artifacts := [{ step := 0, label := "initial", snap := 0 }]
    contents := [.userText task, .userSnap 0]
    clock := 1 }

theorem run_browser_automation_loop_eq (svc : Nat → Decision) (task url : String)
    (max_turns : Nat) :
    run_browser_automation_loop svc task max_turns (mkAgentState url) =
      runLoopAux svc max_turns 0 max_turns (initState task url) := rfl

/-! ### Claim C4: turn-budget exhaustion -/

/-- C4: if the decision service requests actions on every one of the
`max_turns` turns, the loop runs exactly `max_turns` turns (one `"turn"`
progress event each) and `execute_task` returns the exhaustion sentinel as
a success: `ok = true`, `data` the fixed message, no error. -/
theorem turn_budget_exhaustion (svc : Nat → Decision) (task url : String)
    (max_turns : Nat) (h : ∀ t, t < max_turns → (svc t).isCalls = true) :
    ((execute_task svc task url max_turns).1.ok = true) ∧
    ((execute_task svc task url max_turns).1.data = some (maxTurnsMsg max_turns)) ∧
    ((execute_task svc task url max_turns).1.error = none) ∧
    (countTurnEvents (execute_task svc task url max_turns).2 = max_turns) := by
  obtain ⟨st', hrun, hcnt⟩ := runLoopAux_all_calls svc max_turns max_turns 0
    (initState task url) (fun t h1 h2 => h t (by omega))
  have hcnt0 : countTurnEvents (initState task url).progress = 0 := by
    have hb : (("info" : String) == "turn") = false := by decide
    simp [initState, countTurnEvents, List.filter_cons, hb]
  unfold execute_task
  rw [run_browser_automation_loop_eq, hrun]
  refine ⟨rfl, rfl, rfl, ?_⟩
  rw [hcnt, hcnt0]
  omega

/-- Witness for C4: a decision service that always requests one click,
with a budget of 2 turns. -/
theorem turn_budget_exhaustion_witness :
    ((execute_task (fun _ => .calls [{ name := "click_at", failMsg := none }])
        "t" "u" 2).1.ok = true) ∧
    ((execute_task (fun _ => .calls [{ name := "click_at", failMsg := none }])
        "t" "u" 2).1.data = some (maxTurnsMsg 2)) ∧
    ((execute_task (fun _ => .calls [{ name := "click_at", failMsg := none }])
        "t" "u" 2).1.error = none) ∧
    (countTurnEvents (execute_task (fun _ => .calls [{ name := "click_at", failMsg := none }])
        "t" "u" 2).2 = 2) :=
  turn_budget_exhaustion (fun _ => .calls [{ name := "click_at", failMsg := none }])
    "t" "u" 2 (fun _ _ => rfl)

/-! ### Claim C8: progress event discipline -/

/-- C8 counterexample: a one-turn run with a single requested action
produces the progress categories info, turn, action, function_call in
order — the fourth event's category `"function_call"` is not in the
claimed set {info, turn, action, error}. -/
theorem progress_category_outside_claimed_set :
    ((execute_task (fun _ => .calls [{ name := "click_at", failMsg := none }])
        "t" "u" 1).2.map (fun e => e.type) =
      ["info", "turn", "action", "function_call"]) ∧
    ¬(("function_call" : String) ∈ (["info", "turn", "action", "error"] : List String)) := by
  refine ⟨?_, by decide⟩
  decide

/-- C8 (amended): every progress event carries a timestamp, a category and
a message, with the category drawn from {info, turn, action,
function_call}; the sequence is append-only: each run of the turn loop
extends the existing progress list without modifying it, and every event
emitted by a whole `execute_task` run has a category from that set. -/
theorem progress_event_discipline :
    (∀ (svc : Nat → Decision) (max_turns rem turn : Nat) (st : AgentState),
      ∃ l, (stateOf (runLoopAux svc max_turns turn rem st)).progress =
          st.progress ++ l ∧
        ∀ e ∈ l, e.type ∈ (["turn", "action", "function_call"] : List String)) ∧
    (∀ (svc : Nat → Decision) (task url : String) (max_turns : Nat),
      ∀ e ∈ (execute_task svc task url max_turns).2,
        e.type ∈ (["info", "turn", "action", "function_call"] : List String)) := by
  constructor
  · intro svc max_turns rem turn st
    exact runLoopAux_progress svc max_turns rem turn st
  · intro svc task url max_turns e he
    have h2 : (execute_task svc task url max_turns).2 =
        (stateOf (run_browser_automation_loop svc task max_turns
          (mkAgentState url))).progress := by
      unfold execute_task
      cases hres : run_browser_automation_loop svc task max_turns (mkAgentState url) with
      | ok p => obtain ⟨text, st⟩ := p; simp [stateOf]
      | error p => obtain ⟨msg, st⟩ := p; simp [stateOf]
    rw [h2, run_browser_automation_loop_eq] at he
    obtain ⟨l, hl, hty⟩ := runLoopAux_progress svc max_turns max_turns 0 (initState task url)
    rw [hl] at he
    rcases List.mem_append.1 he with h | h
    · simp only [initState, List.mem_singleton] at h
      subst h
      simp
    · have := hty e h
      simp only [List.mem_cons, List.mem_singleton] at this ⊢
      tauto

/-- Witness for C8 (amended) on a concrete run: the loop from a concrete
state only appends, and the first event of a concrete `execute_task` run
has an allowed category. -/
theorem progress_event_discipline_witness :
    (∃ l, (stateOf (runLoopAux (fun _ => .final "d") 1 0 1 (mkAgentState "u"))).progress =
        (mkAgentState "u").progress ++ l ∧
      ∀ e ∈ l, e.type ∈ (["turn", "action", "function_call"] : List String)) ∧
    (({ timestamp := 0, type := "info", message := "Started browser automation" } :
        ProgEvent).type ∈ (["info", "turn", "action", "function_call"] : List String)) :=
  ⟨progress_event_discipline.1 (fun _ => .final "d") 1 1 0 (mkAgentState "u"),
   progress_event_discipline.2 (fun _ => .final "d") "t" "u" 1
     { timestamp := 0, type := "info", message := "Started browser automation" }
     (by decide)⟩

/-! ### Claim C9: per-turn snapshot handling -/

/-- C9 counterexample: in a one-turn run with one requested action, the
snapshot attached to the turn's outcome is capture 1, but the artifact
persisted for that turn is a different, later capture 2 — the loop takes
two snapshots after the turn's actions, and the persisted one is not the
one attached to the outcomes. -/
theorem persisted_artifact_differs_from_attached_snapshot :
    ((stateOf (run_browser_automation_loop
        (fun _ => .calls [{ name := "click_at", failMsg := none }]) "t" 1
        (mkAgentState "u"))).artifacts =
      [{ step := 0, label := "initial", snap := 0 },
       { step := 1, label := "", snap := 2 }]) ∧
    ((stateOf (run_browser_automation_loop
        (fun _ => .calls [{ name := "click_at", failMsg := none }]) "t" 1
        (mkAgentState "u"))).contents =
      [.userText "t", .userSnap 0,
       .model (.calls [{ name := "click_at", failMsg := none }]),
       .responses [{ name := "click_at", url := "u", error := none, snapshot := 1 }]]) ∧
    (2 : Nat) ≠ 1 := by
  refine ⟨?_, ?_, by decide⟩ <;> decide

/-- C9 (amended): in every turn whose response contains action requests,
one snapshot (`st.nextSnap`) is captured after all the turn's actions and
that same snapshot is attached to every one of the turn's outcomes; the
loop then captures a second, distinct snapshot (`st.nextSnap + 1`) and
persists that one as the turn's labeled artifact. -/
theorem turn_snapshot_sharing (svc : Nat → Decision) (max_turns turn : Nat)
    (st : AgentState) (fns : List FnCall) (h : svc turn = .calls fns) :
    ∃ st', loopStep svc max_turns turn st = .next st' ∧
      st'.contents = st.contents ++
        [.model (.calls fns),
         .responses (fns.map (fun f =>
           { name := f.name, url := st.url, error := f.failMsg,
             snapshot := st.nextSnap }))] ∧
      (∀ fr ∈ fns.map (fun f =>
          ({ name := f.name, url := st.url, error := f.failMsg,
             snapshot := st.nextSnap } : FnResponse)), fr.snapshot = st.nextSnap) ∧
      st'.artifacts = st.artifacts ++
        [{ step := st.screenshot_counter, label := "", snap := st.nextSnap + 1 }] ∧
      st'.nextSnap = st.nextSnap + 2 ∧
      st.nextSnap + 1 ≠ st.nextSnap := by
  refine ⟨_, loopStep_calls svc max_turns turn st fns h, rfl, ?_, rfl, rfl, by omega⟩
  intro fr hfr
  simp only [List.mem_map] at hfr
  obtain ⟨f, _, hf⟩ := hfr
  rw [← hf]

/-- Witness for C9 (amended) on a concrete two-action turn. -/
theorem turn_snapshot_sharing_witness :
    ∃ st', loopStep
        (fun _ => .calls [{ name := "click_at", failMsg := none },
                          { name := "hover_at", failMsg := some "late" }]) 5 0
        (mkAgentState "u") =
        .next st' ∧
      st'.contents = (mkAgentState "u").contents ++
        [.model (.calls [{ name := "click_at", failMsg := none },
                         { name := "hover_at", failMsg := some "late" }]),
         .responses (([{ name := "click_at", failMsg := none },
                       { name := "hover_at", failMsg := some "late" }] : List FnCall).map
           (fun f => { name := f.name, url := (mkAgentState "u").url,
                       error := f.failMsg,
                       snapshot := (mkAgentState "u").nextSnap }))] ∧
      (∀ fr ∈ (([{ name := "click_at", failMsg := none },
                 { name := "hover_at", failMsg := some "late" }] : List FnCall).map
          (fun f => ({ name := f.name, url := (mkAgentState "u").url,
                       error := f.failMsg,
                       snapshot := (mkAgentState "u").nextSnap } : FnResponse))),
        fr.snapshot = (mkAgentState "u").nextSnap) ∧
      st'.artifacts = (mkAgentState "u").artifacts ++
        [{ step := (mkAgentState "u").screenshot_counter, label := "",
           snap := (mkAgentState "u").nextSnap + 1 }] ∧
      st'.nextSnap = (mkAgentState "u").nextSnap + 2 ∧
      (mkAgentState "u").nextSnap + 1 ≠ (mkAgentState "u").nextSnap :=
  turn_snapshot_sharing
    (fun _ => .calls [{ name := "click_at", failMsg := none },
                      { name := "hover_at", failMsg := some "late" }]) 5 0
    (mkAgentState "u")
    [{ name := "click_at", failMsg := none },
     { name := "hover_at", failMsg := some "late" }] rfl

/-! ## Embedding of the `wait` tool in `server.py` -/

/-- The dictionary returned by the `wait` tool; `none` fields model absent
keys. -/
structure WaitResult where
  ok : Bool
  error : Option String
  waited_seconds : Option Int
  message : Option String
deriving DecidableEq

/-- The `wait` tool (lines 312-366 of `server.py`); the `anyio.sleep` call
between validation and the success return is external real time. -/
def wait (seconds : Int) : WaitResult :=
  if seconds < 1 then
    { ok := false
      error := some "Wait time must be at least 1 second"
      waited_seconds := none
      message := none }
  else if seconds > 60 then
    { ok := false
      error := some "Wait time cannot exceed 60 seconds. For longer waits, call this tool multiple times."
      waited_seconds := none
      message := none }
  else
    { ok := true
      error := none
      waited_seconds := some seconds
      message := some s!"Successfully waited {seconds} seconds" }

/-! ### Claim C10: wait tool validation -/

/-- C10: `wait` rejects inputs below 1 or above 60 with `ok = false` and an
error message, and otherwise succeeds with `waited_seconds` equal to the
input; it is a total function (the embedding of a handler that never
raises). -/
theorem wait_spec (seconds : Int) :
    (seconds < 1 →
      (wait seconds).ok = false ∧ (wait seconds).error.isSome = true ∧
        (wait seconds).waited_seconds = none) ∧
    (60 < seconds →
      (wait seconds).ok = false ∧ (wait seconds).error.isSome = true ∧
        (wait seconds).waited_seconds = none) ∧
    (1 ≤ seconds → seconds ≤ 60 →
      (wait seconds).ok = true ∧ (wait seconds).waited_seconds = some seconds ∧
        (wait seconds).error = none) := by
  refine ⟨?_, ?_, ?_⟩
  · intro h
    simp [wait, h]
  · intro h
    have h1 : ¬seconds < 1 := by omega
    simp [wait, h1, h]
  · intro h1 h2
    have h1' : ¬seconds < 1 := by omega
    have h2' : ¬seconds > 60 := by omega
    simp [wait, h1', h2']

/-- Witness for C10 at the concrete inputs 5, 0 and 61. -/
theorem wait_spec_witness :
    ((wait 5).ok = true ∧ (wait 5).waited_seconds = some 5 ∧ (wait 5).error = none) ∧
    ((wait 0).ok = false ∧ (wait 0).error.isSome = true ∧
      (wait 0).waited_seconds = none) ∧
    ((wait 61).ok = false ∧ (wait 61).error.isSome = true ∧
      (wait 61).waited_seconds = none) :=
  ⟨(wait_spec 5).2.2 (by decide) (by decide),
   (wait_spec 0).1 (by decide),
   (wait_spec 61).2.1 (by decide)⟩

/-! ## Embedding of the coordinate mapper (`_denormalize_x`, `_denormalize_y`)

`int(x / 1000 * dim)` is evaluated by CPython in IEEE binary64 arithmetic:
one correctly rounded division of exact integers, an exact int-to-float
conversion of the dimension, one correctly rounded multiplication, and a
truncation toward zero.  The model below reproduces binary64
round-to-nearest-even exactly on the value ranges that occur (no overflow
or subnormals), using exact rational arithmetic.
-/

/-- floor of log2 of a positive rational, by testing the candidates around
the bit-length difference of numerator and denominator. -/
def ilog2q (q : ℚ) : Int :=
  let k0 : Int := (Nat.log2 q.num.toNat : Int) - (Nat.log2 q.den : Int)
  if (2 : ℚ) ^ (k0 + 1) ≤ q then k0 + 1
  else if (2 : ℚ) ^ k0 ≤ q then k0
  else if (2 : ℚ) ^ (k0 - 1) ≤ q then k0 - 1
  else k0 - 2

/-- Round half to even of a rational to an integer. -/
def rhe (s : ℚ) : Int :=
  let f := ⌊s⌋
  let r := s - f
  if r < 1 / 2 then f
  else if 1 / 2 < r then f + 1
  else if f % 2 = 0 then f
  else f + 1

/-- Round a positive rational to the nearest binary64 value (53-bit
significand, round half to even; overflow and subnormals cannot occur in
the ranges arising here). -/
def rndPos (q : ℚ) : ℚ :=
  ((rhe (q / 2 ^ (ilog2q q - 52)) : ℚ)) * 2 ^ (ilog2q q - 52)

/-- Round-to-nearest-even binary64 of a rational. -/
def rnd (q : ℚ) : ℚ :=
  if q = 0 then 0 else if q < 0 then -rndPos (-q) else rndPos q

/-- Python's `int()` truncation toward zero. -/
def pyInt (q : ℚ) : Int := if q < 0 then ⌈q⌉ else ⌊q⌋

/-- `int(x / 1000 * dim)` computed in IEEE binary64 arithmetic. -/
def denormalize (x dim : Nat) : Int :=
  pyInt (rnd (rnd ((x : ℚ) / 1000) * rnd (dim : ℚ)))

/-! ### Bracketing of `ilog2q` -/

theorem ilog2q_bracket (q : ℚ) (hq : 0 < q) :
    (2 : ℚ) ^ ilog2q q ≤ q ∧ q < (2 : ℚ) ^ (ilog2q q + 1) := by
  have hnum : 0 < q.num := Rat.num_pos.2 hq
  have hden : 0 < q.den := q.pos
  set a : ℕ := q.num.toNat with ha
  set b : ℕ := q.den with hb
  have ha0 : a ≠ 0 := by
    simp only [ha]
    omega
  have hb0 : b ≠ 0 := by omega
  have hq_eq : q = (a : ℚ) / (b : ℚ) := by
    rw [ha, hb]
    have : ((q.num.toNat : ℤ) : ℚ) = (q.num : ℚ) := by
      rw [Int.toNat_of_nonneg hnum.le]
    push_cast at this ⊢
    rw [this, Rat.num_div_den]
  set la : ℕ := Nat.log2 a with hla
  set lb : ℕ := Nat.log2 b with hlb
  have h2a : (2 : ℚ) ^ la ≤ (a : ℚ) := by
    exact_mod_cast Nat.log2_self_le ha0
  have h3a : (a : ℚ) < 2 ^ (la + 1) := by
    exact_mod_cast Nat.lt_log2_self
  have h2b : (2 : ℚ) ^ lb ≤ (b : ℚ) := by
    exact_mod_cast Nat.log2_self_le hb0
  have h3b : (b : ℚ) < 2 ^ (lb + 1) := by
    exact_mod_cast Nat.lt_log2_self
  have hbQ : (0 : ℚ) < (b : ℚ) := by
    exact_mod_cast Nat.pos_of_ne_zero hb0
  have haQ : (0 : ℚ) < (a : ℚ) := by
    have : 0 < a := Nat.pos_of_ne_zero ha0
    exact_mod_cast this
  have hpow_pos : ∀ n : ℕ, (0 : ℚ) < 2 ^ n := fun n => by positivity
  -- global bounds: 2 ^ (la - lb - 1) < q < 2 ^ (la - lb + 1)
  have hupper : q < (2 : ℚ) ^ ((la : ℤ) - lb + 1) := by
    have h1 : q < (2 : ℚ) ^ (la + 1) / (b : ℚ) := by
      rw [hq_eq]
      exact (div_lt_div_right hbQ).2 h3a
    have h2 : (2 : ℚ) ^ (la + 1) / (b : ℚ) ≤ (2 : ℚ) ^ (la + 1) / (2 : ℚ) ^ lb := by
      exact div_le_div_of_nonneg_left (by positivity) (hpow_pos lb) h2b
    have h3 : (2 : ℚ) ^ (la + 1) / (2 : ℚ) ^ lb = (2 : ℚ) ^ ((la : ℤ) - lb + 1) := by
      rw [← zpow_natCast (2 : ℚ) (la + 1), ← zpow_natCast (2 : ℚ) lb,
        ← zpow_sub₀ (by norm_num : (2 : ℚ) ≠ 0)]
      congr 1
      push_cast
      ring
    calc q < (2 : ℚ) ^ (la + 1) / (b : ℚ) := h1
      _ ≤ (2 : ℚ) ^ (la + 1) / (2 : ℚ) ^ lb := h2
      _ = (2 : ℚ) ^ ((la : ℤ) - lb + 1) := h3
  have hlower : (2 : ℚ) ^ ((la : ℤ) - lb - 1) < q := by
    have h1 : (2 : ℚ) ^ la / (2 : ℚ) ^ (lb + 1) < (2 : ℚ) ^ la / (b : ℚ) := by
      exact div_lt_div_of_pos_left (hpow_pos la) hbQ h3b
    have h2 : (2 : ℚ) ^ la / (b : ℚ) ≤ q := by
      rw [hq_eq]
      exact (div_le_div_right hbQ).2 h2a
    have h3 : (2 : ℚ) ^ la / (2 : ℚ) ^ (lb + 1) = (2 : ℚ) ^ ((la : ℤ) - lb - 1) := by
      rw [← zpow_natCast (2 : ℚ) la, ← zpow_natCast (2 : ℚ) (lb + 1),
        ← zpow_sub₀ (by norm_num : (2 : ℚ) ≠ 0)]
      congr 1
      push_cast
      ring
    calc (2 : ℚ) ^ ((la : ℤ) - lb - 1) = (2 : ℚ) ^ la / (2 : ℚ) ^ (lb + 1) := h3.symm
      _ < (2 : ℚ) ^ la / (b : ℚ) := h1
      _ ≤ q := h2
  unfold ilog2q
  rw [← hla, ← hlb]
  set k0 : ℤ := (la : ℤ) - (lb : ℤ) with hk0
  have hup : q < (2 : ℚ) ^ (k0 + 1) := by
    have : (la : ℤ) - lb + 1 = k0 + 1 := by rw [hk0]
    rw [← this]
    exact hupper
  have hlo : (2 : ℚ) ^ (k0 - 1) < q := by
    have : (la : ℤ) - lb - 1 = k0 - 1 := by rw [hk0]
    rw [← this]
    exact hlower
  by_cases hc1 : (2 : ℚ) ^ (k0 + 1) ≤ q
  · exact absurd hup (not_lt.2 hc1)
  · rw [if_neg hc1]
    by_cases hc2 : (2 : ℚ) ^ k0 ≤ q
    · rw [if_pos hc2]
      exact ⟨hc2, hup⟩
    · rw [if_neg hc2]
      by_cases hc3 : (2 : ℚ) ^ (k0 - 1) ≤ q
      · rw [if_pos hc3]
        have : k0 - 1 + 1 = k0 := by omega
        rw [this]
        exact ⟨hc3, not_le.1 hc2⟩
      · exact absurd hlo.le hc3

/-! ### Round half to even -/

theorem rhe_bounds (s : ℚ) : ⌊s⌋ ≤ rhe s ∧ rhe s ≤ ⌊s⌋ + 1 := by
  unfold rhe
  dsimp only
  split
  · omega
  · split
    · omega
    · split <;> omega

theorem rhe_mono {s t : ℚ} (h : s ≤ t) : rhe s ≤ rhe t := by
  have hf : ⌊s⌋ ≤ ⌊t⌋ := Int.floor_mono h
  rcases lt_or_eq_of_le hf with hlt | heq
  · have h1 := (rhe_bounds s).2
    have h2 := (rhe_bounds t).1
    omega
  · unfold rhe
    dsimp only
    rw [← heq]
    have hr : s - ⌊s⌋ ≤ t - ⌊t⌋ := by
      rw [← heq]
      exact sub_le_sub_right h _
    rw [← heq] at hr
    by_cases hs1 : s - ⌊s⌋ < 1 / 2
    · rw [if_pos hs1]
      split
      · omega
      · split
        · omega
        · split <;> omega
    · rw [if_neg hs1]
      have ht1 : ¬(t - ⌊s⌋ < 1 / 2) := by
        intro hc
        exact hs1 (lt_of_le_of_lt hr hc)
      rw [if_neg ht1]
      by_cases hs2 : 1 / 2 < s - ⌊s⌋
      · rw [if_pos hs2, if_pos (lt_of_lt_of_le hs2 hr)]
      · rw [if_neg hs2]
        by_cases ht2 : 1 / 2 < t - ⌊t⌋
        · rw [← heq] at ht2
          rw [if_pos ht2]
          split <;> omega
        · rw [← heq] at ht2
          rw [if_neg ht2]

/-! ### Placement of `rndPos` -/

theorem rndPos_place (q : ℚ) (hq : 0 < q) :
    (2 : ℚ) ^ ilog2q q ≤ rndPos q ∧ rndPos q ≤ (2 : ℚ) ^ (ilog2q q + 1) := by
  obtain ⟨hlo, hup⟩ := ilog2q_bracket q hq
  set k : ℤ := ilog2q q with hk
  set e : ℤ := k - 52 with he
  have hepos : (0 : ℚ) < 2 ^ e := zpow_pos (by norm_num) e
  set s : ℚ := q / 2 ^ e with hs
  have hs_lo : (2 : ℚ) ^ (52 : ℤ) ≤ s := by
    rw [hs]
    rw [le_div_iff hepos]
    calc (2 : ℚ) ^ (52 : ℤ) * 2 ^ e = 2 ^ (52 + e) := by
          rw [← zpow_add₀ (by norm_num : (2 : ℚ) ≠ 0)]
      _ = 2 ^ k := by
          congr 1
          omega
      _ ≤ q := hlo
  have hs_up : s < (2 : ℚ) ^ (53 : ℤ) := by
    rw [hs, div_lt_iff hepos]
    calc q < 2 ^ (k + 1) := hup
      _ = (2 : ℚ) ^ (53 : ℤ) * 2 ^ e := by
          rw [← zpow_add₀ (by norm_num : (2 : ℚ) ≠ 0)]
          congr 1
          omega
  have hf_lo : (2 : ℤ) ^ (52 : ℕ) ≤ ⌊s⌋ := by
    apply Int.le_floor.2
    calc ((2 ^ (52 : ℕ) : ℤ) : ℚ) = (2 : ℚ) ^ (52 : ℤ) := by push_cast; norm_num
      _ ≤ s := hs_lo
  have hf_up : ⌊s⌋ < (2 : ℤ) ^ (53 : ℕ) := by
    apply Int.floor_lt.2
    calc s < (2 : ℚ) ^ (53 : ℤ) := hs_up
      _ = ((2 ^ (53 : ℕ) : ℤ) : ℚ) := by push_cast; norm_num
  obtain ⟨hr1, hr2⟩ := rhe_bounds s
  have hrhe_lo : (2 : ℤ) ^ (52 : ℕ) ≤ rhe s := le_trans hf_lo hr1
  have hrhe_up : rhe s ≤ (2 : ℤ) ^ (53 : ℕ) := by omega
  constructor
  · show (2 : ℚ) ^ k ≤ (rhe (q / 2 ^ (k - 52)) : ℚ) * 2 ^ (k - 52)
    rw [← he, ← hs]
    calc (2 : ℚ) ^ k = 2 ^ (52 : ℤ) * 2 ^ e := by
          rw [← zpow_add₀ (by norm_num : (2 : ℚ) ≠ 0)]
          congr 1
          omega
      _ ≤ (rhe s : ℚ) * 2 ^ e := by
          apply mul_le_mul_of_nonneg_right _ hepos.le
          calc (2 : ℚ) ^ (52 : ℤ) = ((2 ^ (52 : ℕ) : ℤ) : ℚ) := by push_cast; norm_num
            _ ≤ (rhe s : ℚ) := by exact_mod_cast hrhe_lo
  · show (rhe (q / 2 ^ (k - 52)) : ℚ) * 2 ^ (k - 52) ≤ (2 : ℚ) ^ (k + 1)
    rw [← he, ← hs]
    calc (rhe s : ℚ) * 2 ^ e ≤ (2 : ℚ) ^ (53 : ℤ) * 2 ^ e := by
          apply mul_le_mul_of_nonneg_right _ hepos.le
          calc (rhe s : ℚ) ≤ ((2 ^ (53 : ℕ) : ℤ) : ℚ) := by exact_mod_cast hrhe_up
            _ = (2 : ℚ) ^ (53 : ℤ) := by push_cast; norm_num
      _ = (2 : ℚ) ^ (k + 1) := by
          rw [← zpow_add₀ (by norm_num : (2 : ℚ) ≠ 0)]
          congr 1
          omega

theorem rndPos_nonneg (q : ℚ) (hq : 0 < q) : 0 ≤ rndPos q :=
  le_trans (zpow_pos (by norm_num : (0 : ℚ) < 2) (ilog2q q)).le (rndPos_place q hq).1

theorem ilog2q_mono {q1 q2 : ℚ} (h1 : 0 < q1) (h : q1 ≤ q2) :
    ilog2q q1 ≤ ilog2q q2 := by
  have h2 : 0 < q2 := lt_of_lt_of_le h1 h
  have hb1 := (ilog2q_bracket q1 h1).1
  have hb2 := (ilog2q_bracket q2 h2).2
  have hchain : (2 : ℚ) ^ ilog2q q1 < (2 : ℚ) ^ (ilog2q q2 + 1) :=
    lt_of_le_of_lt (le_trans hb1 h) hb2
  have := (zpow_lt_zpow_iff_right₀ (by norm_num : (1 : ℚ) < 2)).1 hchain
  omega

theorem rndPos_mono {q1 q2 : ℚ} (h1 : 0 < q1) (h : q1 ≤ q2) :
    rndPos q1 ≤ rndPos q2 := by
  have h2 : 0 < q2 := lt_of_lt_of_le h1 h
  have hk : ilog2q q1 ≤ ilog2q q2 := ilog2q_mono h1 h
  rcases eq_or_lt_of_le hk with heq | hlt
  · unfold rndPos
    rw [heq]
    have hepos : (0 : ℚ) < 2 ^ (ilog2q q2 - 52) :=
      zpow_pos (by norm_num) _
    apply mul_le_mul_of_nonneg_right _ hepos.le
    have hs : q1 / 2 ^ (ilog2q q2 - 52) ≤ q2 / 2 ^ (ilog2q q2 - 52) :=
      (div_le_div_right hepos).2 h
    exact_mod_cast rhe_mono hs
  · calc rndPos q1 ≤ (2 : ℚ) ^ (ilog2q q1 + 1) := (rndPos_place q1 h1).2
      _ ≤ (2 : ℚ) ^ ilog2q q2 :=
          zpow_le_zpow_right₀ (by norm_num : (1 : ℚ) ≤ 2) (by omega)
      _ ≤ rndPos q2 := (rndPos_place q2 h2).1

theorem rnd_nonneg (q : ℚ) (hq : 0 ≤ q) : 0 ≤ rnd q := by
  unfold rnd
  by_cases h0 : q = 0
  · simp [h0]
  · have hpos : 0 < q := lt_of_le_of_ne hq (Ne.symm h0)
    rw [if_neg h0, if_neg (not_lt.2 hq)]
    exact rndPos_nonneg q hpos

theorem rnd_mono {q1 q2 : ℚ} (h1 : 0 ≤ q1) (h : q1 ≤ q2) : rnd q1 ≤ rnd q2 := by
  have h2 : 0 ≤ q2 := le_trans h1 h
  unfold rnd
  by_cases h0 : q1 = 0
  · rw [if_pos h0]
    by_cases h0' : q2 = 0
    · rw [if_pos h0']
    · rw [if_neg h0', if_neg (not_lt.2 h2)]
      exact rndPos_nonneg q2 (lt_of_le_of_ne h2 (Ne.symm h0'))
  · have hpos1 : 0 < q1 := lt_of_le_of_ne h1 (Ne.symm h0)
    have hpos2 : 0 < q2 := lt_of_lt_of_le hpos1 h
    rw [if_neg h0, if_neg (not_lt.2 h1), if_neg (ne_of_gt hpos2), if_neg (not_lt.2 h2)]
    exact rndPos_mono hpos1 h

theorem pyInt_mono_nonneg {q1 q2 : ℚ} (h1 : 0 ≤ q1) (h : q1 ≤ q2) :
    pyInt q1 ≤ pyInt q2 := by
  unfold pyInt
  rw [if_neg (not_lt.2 h1), if_neg (not_lt.2 (le_trans h1 h))]
  exact Int.floor_mono h

/-- Monotonicity of the coordinate mapper in the normalized coordinate. -/
theorem denormalize_mono (dim : Nat) {x1 x2 : Nat} (h : x1 ≤ x2) :
    denormalize x1 dim ≤ denormalize x2 dim := by
  unfold denormalize
  have hx : ((x1 : ℚ)) / 1000 ≤ (x2 : ℚ) / 1000 := by
    apply (div_le_div_right (by norm_num : (0 : ℚ) < 1000)).2
    exact_mod_cast h
  have hx1 : (0 : ℚ) ≤ (x1 : ℚ) / 1000 := by positivity
  have hd : (0 : ℚ) ≤ rnd ((dim : ℚ)) := rnd_nonneg _ (by positivity)
  have h1 : rnd ((x1 : ℚ) / 1000) ≤ rnd ((x2 : ℚ) / 1000) := rnd_mono hx1 hx
  have hr1 : (0 : ℚ) ≤ rnd ((x1 : ℚ) / 1000) := rnd_nonneg _ hx1
  have h2 : rnd ((x1 : ℚ) / 1000) * rnd (dim : ℚ) ≤
      rnd ((x2 : ℚ) / 1000) * rnd (dim : ℚ) :=
    mul_le_mul_of_nonneg_right h1 hd
  have hp1 : (0 : ℚ) ≤ rnd ((x1 : ℚ) / 1000) * rnd (dim : ℚ) := mul_nonneg hr1 hd
  exact pyInt_mono_nonneg (rnd_nonneg _ hp1) (rnd_mono hp1 h2)

/-! ### Evaluation lemmas -/

theorem log2_eq (n k : Nat) (h1 : 2 ^ k ≤ n) (h2 : n < 2 ^ (k + 1)) :
    Nat.log2 n = k := by
  have hn : n ≠ 0 := by
    have : 0 < 2 ^ k := Nat.pos_pow_of_pos k (by norm_num)
    omega
  have ha := Nat.log2_self_le hn
  have hb := Nat.lt_log2_self (n := n)
  have h3 : Nat.log2 n < k + 1 := by
    by_contra h
    push_neg at h
    have : 2 ^ (k + 1) ≤ 2 ^ Nat.log2 n := Nat.pow_le_pow_right (by norm_num) h
    omega
  have h4 : k < Nat.log2 n + 1 := by
    by_contra h
    push_neg at h
    have : 2 ^ (Nat.log2 n + 1) ≤ 2 ^ k := Nat.pow_le_pow_right (by norm_num) h
    omega
  omega

theorem ilog2q_eval (q : ℚ) (k0 : Int)
    (hnum : (Nat.log2 q.num.toNat : Int) - (Nat.log2 q.den : Int) = k0)
    (h1 : ¬((2 : ℚ) ^ (k0 + 1) ≤ q)) (h2 : (2 : ℚ) ^ k0 ≤ q) :
    ilog2q q = k0 := by
  unfold ilog2q
  rw [hnum, if_neg h1, if_pos h2]

theorem rndPos_eval (q : ℚ) (k f : Int)
    (hlog : ilog2q q = k)
    (hfloor : ⌊q / 2 ^ (k - 52)⌋ = f)
    (hr : q / 2 ^ (k - 52) - f < 1 / 2) :
    rndPos q = (f : ℚ) * 2 ^ (k - 52) := by
  unfold rndPos rhe
  rw [hlog]
  dsimp only
  rw [hfloor, if_pos hr]

theorem rnd_eval_pos (q : ℚ) (hq : 0 < q) (v : ℚ) (hv : rndPos q = v) : rnd q = v := by
  unfold rnd
  rw [if_neg (ne_of_gt hq), if_neg (not_lt.2 hq.le), hv]

/-- The counterexample evaluation: `int(290 / 1000 * 100)` in binary64 is
28, one below `floor(290 * 100 / 1000) = 29`. -/
theorem denormalize_290_100 : denormalize 290 100 = 28 := by
  have e1 : ilog2q ((290 : ℚ) / 1000) = -2 := by
    apply ilog2q_eval
    · rw [show ((290 : ℚ) / 1000).num = 29 from by norm_num,
          show ((290 : ℚ) / 1000).den = 100 from by norm_num]
      rw [show ((29 : ℤ)).toNat = 29 from rfl]
      rw [show Nat.log2 29 = 4 from log2_eq 29 4 (by norm_num) (by norm_num),
          show Nat.log2 100 = 6 from log2_eq 100 6 (by norm_num) (by norm_num)]
      norm_num
    · norm_num
    · norm_num
  have e2 : rndPos ((290 : ℚ) / 1000) =
      (5224175567749775 : ℚ) * 2 ^ ((-2 : ℤ) - 52) := by
    apply rndPos_eval _ _ _ e1
    · norm_num
    · norm_num
  have e3 : rnd ((290 : ℚ) / 1000) = 5224175567749775 / 18014398509481984 := by
    apply rnd_eval_pos _ (by norm_num)
    rw [e2]
    norm_num
  have e4 : ilog2q (100 : ℚ) = 6 := by
    apply ilog2q_eval
    · rw [show ((100 : ℚ)).num = 100 from by norm_num,
          show ((100 : ℚ)).den = 1 from by norm_num]
      rw [show ((100 : ℤ)).toNat = 100 from rfl]
      rw [show Nat.log2 100 = 6 from log2_eq 100 6 (by norm_num) (by norm_num),
          show Nat.log2 1 = 0 from log2_eq 1 0 (by norm_num) (by norm_num)]
      norm_num
    · norm_num
    · norm_num
  have e5 : rndPos (100 : ℚ) = (7036874417766400 : ℚ) * 2 ^ ((6 : ℤ) - 52) := by
    apply rndPos_eval _ _ _ e4
    · norm_num
    · norm_num
  have e6 : rnd (100 : ℚ) = 100 := by
    apply rnd_eval_pos _ (by norm_num)
    rw [e5]
    norm_num
  have e7 : ilog2q ((130604389193744375 : ℚ) / 4503599627370496) = 4 := by
    apply ilog2q_eval
    · rw [show ((130604389193744375 : ℚ) / 4503599627370496).num = 130604389193744375
            from by norm_num,
          show ((130604389193744375 : ℚ) / 4503599627370496).den = 4503599627370496
            from by norm_num]
      rw [show ((130604389193744375 : ℤ)).toNat = 130604389193744375 from rfl]
      rw [show Nat.log2 130604389193744375 = 56 from log2_eq 130604389193744375 56 (by norm_num) (by norm_num),
          show Nat.log2 4503599627370496 = 52 from log2_eq 4503599627370496 52 (by norm_num) (by norm_num)]
      norm_num
    · norm_num
    · norm_num
  have e8 : rndPos ((130604389193744375 : ℚ) / 4503599627370496) =
      (8162774324609023 : ℚ) * 2 ^ ((4 : ℤ) - 52) := by
    apply rndPos_eval _ _ _ e7
    · norm_num
    · norm_num
  have e9 : rnd ((130604389193744375 : ℚ) / 4503599627370496) =
      8162774324609023 / 281474976710656 := by
    apply rnd_eval_pos _ (by norm_num)
    rw [e8]
    norm_num
  unfold denormalize
  rw [show ((290 : ℕ) : ℚ) = 290 from by norm_num,
      show ((100 : ℕ) : ℚ) = 100 from by norm_num, e3, e6]
  rw [show (5224175567749775 / 18014398509481984 : ℚ) * 100 =
      130604389193744375 / 4503599627370496 from by norm_num, e9]
  unfold pyInt
  rw [if_neg (by norm_num)]
  norm_num

theorem floor_290_100 : ⌊(290 : ℚ) / 1000 * 100⌋ = 29 := by norm_num

/-- `GeminiBrowserAgent._denormalize_x`: `int(x / 1000 * SCREEN_WIDTH)`,
with the configured width passed explicitly. -/
def denormalize_x (x SCREEN_WIDTH : Nat) : Int := denormalize x SCREEN_WIDTH

/-- `GeminiBrowserAgent._denormalize_y`: `int(y / 1000 * SCREEN_HEIGHT)`,
with the configured height passed explicitly. -/
def denormalize_y (y SCREEN_HEIGHT : Nat) : Int := denormalize y SCREEN_HEIGHT

/-! ### Claim C3: coordinate mapper -/

/-- C3 counterexample: at normalized coordinate 290 and dimension 100, the
mapper returns 28 under binary64 arithmetic, while
`floor(290 / 1000 * 100) = 29` — the claimed exact-floor formula fails. -/
theorem denormalize_not_exact_floor :
    denormalize_x 290 100 = 28 ∧ ⌊(290 : ℚ) / 1000 * 100⌋ = 29 :=
  ⟨denormalize_290_100, floor_290_100⟩

/-- C3 (amended): the coordinate mapper computes `int(x / 1000 * W)` in
IEEE binary64 arithmetic — a pure total function with no failure mode —
and for every fixed dimension the mapping is monotone non-decreasing in
the normalized coordinate (the exact-floor formula of the original claim
can be off by one, as the counterexample shows). -/
theorem coordinate_mapper_monotone (W H : Nat) {x1 x2 y1 y2 : Nat}
    (hx : x1 ≤ x2) (hy : y1 ≤ y2) :
    denormalize_x x1 W ≤ denormalize_x x2 W ∧
    denormalize_y y1 H ≤ denormalize_y y2 H :=
  ⟨denormalize_mono W hx, denormalize_mono H hy⟩

/-- Witness for C3 (amended) at concrete inputs and the default
1440 × 900 viewport. -/
theorem coordinate_mapper_monotone_witness :
    denormalize_x 3 1440 ≤ denormalize_x 5 1440 ∧
    denormalize_y 7 900 ≤ denormalize_y 9 900 :=
  coordinate_mapper_monotone 1440 900 (by norm_num) (by norm_num)

end ComputerUseMCP
